import Mathlib

/-!
Verification of the branch-resolution and push-retry logic of the
Cresta-Open-Data git wrapper (src/git_utils.py, the free-function variant,
and src/git_operations.py, the object-oriented variant).

The development is organised in three layers.

1. A small semantics of the Python string operations the code uses
   (`str.strip`, `str.split`, `str.startswith`, `str.endswith`,
   `str.replace`, substring membership, slicing).  These are written as
   structural recursions over `List Char` so that every concrete instance
   reduces inside the kernel.

2. An environment model: a `Repo` value describes the observable state of
   the underlying git repository (local branches, remote-tracking
   branches, the `origin/HEAD` symbolic ref, the checked-out branch, and
   commit / push counters), a `Faults` record injects the external failure
   modes a subprocess call can exhibit (non-zero exit, timeout, spawn
   failure, and the iteration order Python's `set` type imposes), and one
   `CmdOutcome`-valued function per git subcommand maps a repository state
   to the outcome and the successor state of that command.

3. The code layer: each Python function of the two modules is translated
   into a Lean function that threads the repository state explicitly and
   consumes command outcomes through the translated `run_git_command` of
   its module.
-/

/-! ### Python string semantics -/

/-- Whitespace characters recognised by Python's `str.strip`. -/
def isPyWs (c : Char) : Bool :=
  c == ' ' || c == '\t' || c == '\n' || c == '\r' || c == '\x0b' || c == '\x0c'

/-- Remove leading and trailing Python whitespace from a character list,
as `str.strip` does. -/
def stripL (l : List Char) : List Char :=
  ((l.dropWhile isPyWs).reverse.dropWhile isPyWs).reverse

/-- Split a character list at newline characters, as Python's
`str.split` with separator `"\n"` does: the result always has one more
entry than there are newlines, so the empty string splits to `[""]`. -/
def splitLinesL : List Char → List (List Char)
  | [] => [[]]
  | c :: rest =>
    match splitLinesL rest with
    | [] => [[]]
    | l :: ls => if c = '\n' then [] :: l :: ls else (c :: l) :: ls

/-- Join lines with newline characters; the left inverse of `splitLinesL`
for newline-free lines.  Used by the repository model to produce the text
a git listing command writes to stdout. -/
def joinL : List (List Char) → List Char
  | [] => []
  | [l] => l
  | l :: ls => l ++ '\n' :: joinL ls

/-- Suffix following the last occurrence of `sub` (assumed non-empty), or
`none` if `sub` does not occur.  This is the value of Python's
`s.split(sub)[-1]` when the result is `some`, and `s` itself otherwise. -/
def afterLastSubAux (sub : List Char) : List Char → Option (List Char)
  | [] => none
  | c :: rest =>
    match afterLastSubAux sub rest with
    | some r => some r
    | none =>
      if sub.isPrefixOf (c :: rest) then some ((c :: rest).drop sub.length)
      else none

/-- Python's `s.replace("origin/", "")`: delete every occurrence of the
substring `origin/`, scanning left to right. -/
def stripAllOrigin : List Char → List Char
  | 'o' :: 'r' :: 'i' :: 'g' :: 'i' :: 'n' :: '/' :: rest => stripAllOrigin rest
  | c :: rest => c :: stripAllOrigin rest
  | [] => []

/-- String-level wrapper for `stripL` (Python `s.strip()`). -/
def pyStrip (s : String) : String := ⟨stripL s.data⟩

/-- String-level wrapper for `splitLinesL` (Python `s.split('\n')`). -/
def pySplitLines (s : String) : List String :=
  (splitLinesL s.data).map (fun l => String.mk l)

/-- Python `s.startswith(p)`. -/
def pyStartsWith (s p : String) : Bool := p.data.isPrefixOf s.data

/-- Python `s.endswith(p)`. -/
def pyEndsWith (s p : String) : Bool := p.data.isSuffixOf s.data

/-- Python `sub in s` for a non-empty `sub`. -/
def pyContains (sub s : String) : Bool := (afterLastSubAux sub.data s.data).isSome

/-- Python `s.split(sub)[-1]` for a non-empty `sub`. -/
def pyAfterLastSplit (sub s : String) : String :=
  ⟨(afterLastSubAux sub.data s.data).getD s.data⟩

/-- Python `s.lower()` (ASCII case folding suffices for the texts the
code inspects). -/
def pyLower (s : String) : String := ⟨s.data.map Char.toLower⟩

/-- Python slicing `s[n:]`. -/
def pyDrop (n : Nat) (s : String) : String := ⟨s.data.drop n⟩

/-- Python `s.replace("origin/", "")` at the string level. -/
def pyStripAllOrigin (s : String) : String := ⟨stripAllOrigin s.data⟩

/-! ### Subprocess outcomes and the two `run_git_command` translations -/

/-- Result of one `subprocess.run` invocation: normal exit with an exit
code and captured stdout and stderr text, expiry of the configured
timeout, or a spawn failure raised as an exception. -/
inductive CmdOutcome where
  | exited (code : Nat) (stdout stderr : String)
  | timedOut
  | spawnFailed (msg : String)
deriving DecidableEq

/-- Translation of `run_git_command` from src/git_utils.py: success is
exit code 0, and the output is the stripped stdout concatenated with the
stripped stderr; any raised exception is caught and reported as a failed
result carrying the exception text. -/
def run_git_command_utils : CmdOutcome → Bool × String
  | .exited code out err => (code == 0, pyStrip out ++ pyStrip err)
  | .timedOut => (false, "Command timed out")
  | .spawnFailed msg => (false, msg)

/-- Translation of `GitOperations.run_git_command` from
src/git_operations.py: success (exit code 0) returns the stripped stdout,
a non-zero exit returns the stripped stderr, a timeout of the fixed
30-second limit and a spawn failure are caught and reported with the
messages the code builds. -/
def run_git_command_oo : CmdOutcome → Bool × String
  | .exited code out err => if code == 0 then (true, pyStrip out) else (false, pyStrip err)
  | .timedOut => (false, "Git command timed out")
  | .spawnFailed msg => (false, "Git command failed: " ++ msg)

/-! ### Repository model

The code under verification only ever observes the repository through the
git subcommands it runs.  `Repo` is the abstract state those subcommands
expose: the listed local branches, the remote-tracking branches of the
single `origin` remote (stored without the `origin/` prefix, exactly as
they are named on the remote), the target of the `origin/HEAD` symbolic
ref when it is set, the currently checked-out branch (`none` models a
detached HEAD), counters of commits created and pushes performed, and two
flags describing whether the index holds staged changes and whether the
working tree holds unstaged changes. -/

structure Repo where
  localBranches : List String
  remoteBranches : List String
  originHead : Option String
  current : Option String
  commits : Nat
  pushes : Nat
  staged : Bool
  dirty : Bool
deriving DecidableEq

/-- External failure injection for each subcommand the code runs.  A
field of value `some o` forces the corresponding subprocess invocation to
produce outcome `o` instead of its normal git behaviour, which models
non-zero exits for external reasons (conflicts, permissions, network),
timeouts and spawn failures.  `pySet` models the iteration order of
Python's `set` type, which the free-function module uses through
`list(set(...))`: it is an arbitrary reordering chosen by the runtime. -/
structure Faults where
  pySet : List String → List String
  listFault : Option CmdOutcome
  listRFault : Option CmdOutcome
  listFmtFault : Option CmdOutcome
  listRFmtFault : Option CmdOutcome
  showCurrentFault : Option CmdOutcome
  statusFault : Option CmdOutcome
  symRefFault : Option CmdOutcome
  showRefFault : String → Option CmdOutcome
  checkoutFault : String → Option CmdOutcome
  checkoutNewFault : String → Option CmdOutcome
  checkoutTrackFault : String → Option CmdOutcome
  fetchFault : Option CmdOutcome
  fetchBranchFault : String → Option CmdOutcome
  addFault : String → Option CmdOutcome
  diffFault : Option CmdOutcome
  commitFault : Option CmdOutcome
  pushFault : String → Option CmdOutcome
  pushUFault : String → Option CmdOutcome
  now : String

/-- Well-formedness of a branch name as git enforces it: non-empty, no
whitespace and no asterisk anywhere (git's ref-name rules forbid both),
and not starting with a parenthesis, so that a listing line is never
ambiguous with git's `(HEAD detached ...)` annotation. -/
def validName (b : String) : Bool :=
  !b.data.isEmpty &&
    b.data.all (fun c => !isPyWs c && !(c == '*')) &&
    !(b.data.headD ' ' == '(')

/-- Well-formedness of a repository state: every branch name that can
appear in a listing is a valid git branch name. -/
def Repo.wfB (s : Repo) : Bool :=
  s.localBranches.all validName &&
    s.remoteBranches.all validName &&
    (match s.current with | some c => validName c | none => true) &&
    (match s.originHead with | some h => validName h | none => true)

/-- One line of plain `git branch` output: the current branch is marked
with a star, all others are indented by two spaces. -/
def localLine (cur : Option String) (b : String) : List Char :=
  match cur with
  | some c => if b == c then '*' :: ' ' :: b.data else ' ' :: ' ' :: b.data
  | none => ' ' :: ' ' :: b.data

/-- The annotation line plain `git branch` prints first when HEAD is
detached (the abbreviated commit hash is fixed in the model). -/
def detachedMarker : List Char := "* (HEAD detached at 1234abc)".data

/-- Lines of plain `git branch` output for a repository state. -/
def branchLinesData (s : Repo) : List (List Char) :=
  match s.current with
  | none => detachedMarker :: s.localBranches.map (fun b => ' ' :: ' ' :: b.data)
  | some c => s.localBranches.map (localLine (some c))

/-- Stdout of plain `git branch`. -/
def branchListingOut (s : Repo) : String := ⟨joinL (branchLinesData s)⟩

/-- Lines of plain `git branch -r` output: the `origin/HEAD -> origin/x`
annotation first when `origin/HEAD` is set, then one indented
`origin/<name>` line per remote-tracking branch. -/
def branchRLinesData (s : Repo) : List (List Char) :=
  (match s.originHead with
   | some h => [' ' :: ' ' :: ("origin/HEAD -> origin/" ++ h).data]
   | none => []) ++
    s.remoteBranches.map (fun b => ' ' :: ' ' :: ("origin/" ++ b).data)

/-- Stdout of plain `git branch -r`. -/
def branchRListingOut (s : Repo) : String := ⟨joinL (branchRLinesData s)⟩

/-- Stdout of `git branch --format=%(refname:short)`: one unindented
branch name per line. -/
def branchFmtOut (s : Repo) : String :=
  ⟨joinL (s.localBranches.map String.data)⟩

/-- Stdout of `git branch -r --format=%(refname:short)`: the symref entry
prints as a bare `origin/HEAD` line, followed by `origin/<name>` lines. -/
def branchRFmtOut (s : Repo) : String :=
  ⟨joinL ((match s.originHead with
           | some _ => ["origin/HEAD".data]
           | none => []) ++
      s.remoteBranches.map (fun b => ("origin/" ++ b).data))⟩

/-- Outcome of a read-only command: the injected fault if one is set,
otherwise a clean exit printing `text`. -/
def queryOut (fault : Option CmdOutcome) (text : String) : CmdOutcome :=
  match fault with
  | some o => o
  | none => .exited 0 text ""

/-- Outcome of `git branch`. -/
def listOutcome (f : Faults) (s : Repo) : CmdOutcome × Repo :=
  (queryOut f.listFault (branchListingOut s), s)

/-- Outcome of `git branch -r`. -/
def listROutcome (f : Faults) (s : Repo) : CmdOutcome × Repo :=
  (queryOut f.listRFault (branchRListingOut s), s)

/-- Outcome of `git branch --format=%(refname:short)`. -/
def listFmtOutcome (f : Faults) (s : Repo) : CmdOutcome × Repo :=
  (queryOut f.listFmtFault (branchFmtOut s), s)

/-- Outcome of `git branch -r --format=%(refname:short)`. -/
def listRFmtOutcome (f : Faults) (s : Repo) : CmdOutcome × Repo :=
  (queryOut f.listRFmtFault (branchRFmtOut s), s)

/-- Outcome of `git branch --show-current`: prints the current branch
name, or nothing when HEAD is detached. -/
def showCurrentOutcome (f : Faults) (s : Repo) : CmdOutcome × Repo :=
  (queryOut f.showCurrentFault (match s.current with | some c => c | none => ""), s)

/-- Outcome of `git status --porcelain`. -/
def statusOutcome (f : Faults) (s : Repo) : CmdOutcome × Repo :=
  (queryOut f.statusFault (if s.dirty then " M data.csv" else ""), s)

/-- Outcome of `git symbolic-ref refs/remotes/origin/HEAD`: resolves to
the full remote ref when `origin/HEAD` is set and fails otherwise. -/
def symRefOutcome (f : Faults) (s : Repo) : CmdOutcome × Repo :=
  (match f.symRefFault with
   | some o => o
   | none =>
     match s.originHead with
     | some h => .exited 0 ("refs/remotes/origin/" ++ h) ""
     | none => .exited 1 "" "fatal: ref refs/remotes/origin/HEAD is not a symbolic ref", s)

/-- Outcome of `git show-ref --verify --quiet refs/remotes/origin/<b>`:
exit 0 exactly when the remote-tracking branch exists. -/
def showRefOutcome (f : Faults) (s : Repo) (b : String) : CmdOutcome × Repo :=
  (match f.showRefFault b with
   | some o => o
   | none => .exited (if s.remoteBranches.contains b then 0 else 1) "" "", s)

/-- Outcome of `git checkout <b>`: switching to a local branch succeeds
and moves HEAD there; checking out a name that only exists as a
remote-tracking branch succeeds through git's do-what-I-mean rule and
creates the local branch; otherwise git reports an unmatched pathspec. -/
def checkoutOutcome (f : Faults) (s : Repo) (b : String) : CmdOutcome × Repo :=
  match f.checkoutFault b with
  | some o => (o, s)
  | none =>
    if s.localBranches.contains b then
      (.exited 0 ("Switched to branch " ++ b) "", { s with current := some b })
    else if s.remoteBranches.contains b then
      (.exited 0 ("Switched to a new branch " ++ b) "",
        { s with localBranches := s.localBranches ++ [b], current := some b })
    else
      (.exited 1 "" ("error: pathspec " ++ b ++ " did not match any file(s) known to git"), s)

/-- Outcome of `git checkout -b <b>`: creates a new branch from the
current HEAD and switches to it, failing if the name already exists. -/
def checkoutNewOutcome (f : Faults) (s : Repo) (b : String) : CmdOutcome × Repo :=
  match f.checkoutNewFault b with
  | some o => (o, s)
  | none =>
    if s.localBranches.contains b then
      (.exited 128 "" ("fatal: a branch named " ++ b ++ " already exists"), s)
    else
      (.exited 0 ("Switched to a new branch " ++ b) "",
        { s with localBranches := s.localBranches ++ [b], current := some b })

/-- Outcome of `git checkout -b <b> origin/<b>`: creates a local branch
tracking the remote one and switches to it. -/
def checkoutTrackOutcome (f : Faults) (s : Repo) (b : String) : CmdOutcome × Repo :=
  match f.checkoutTrackFault b with
  | some o => (o, s)
  | none =>
    if s.localBranches.contains b then
      (.exited 128 "" ("fatal: a branch named " ++ b ++ " already exists"), s)
    else if s.remoteBranches.contains b then
      (.exited 0 ("Switched to a new branch " ++ b) "",
        { s with localBranches := s.localBranches ++ [b], current := some b })
    else
      (.exited 128 "" ("fatal: origin/" ++ b ++ " is not a commit"), s)

/-- Outcome of `git fetch origin` (the model keeps the remote-tracking
set up to date, so a clean fetch changes nothing observable). -/
def fetchOutcome (f : Faults) (s : Repo) : CmdOutcome × Repo :=
  (queryOut f.fetchFault "", s)

/-- Outcome of `git fetch origin <b>:<b>`: creates local branch `b` from
the remote branch of the same name without switching to it. -/
def fetchBranchOutcome (f : Faults) (s : Repo) (b : String) : CmdOutcome × Repo :=
  match f.fetchBranchFault b with
  | some o => (o, s)
  | none =>
    if s.remoteBranches.contains b && !s.localBranches.contains b then
      (.exited 0 "" "", { s with localBranches := s.localBranches ++ [b] })
    else
      (.exited 1 "" ("fatal: refusing to fetch into branch " ++ b), s)

/-- Outcome of `git add <p>` (or `git add .`): moves any working-tree
changes into the index. -/
def addOutcome (f : Faults) (s : Repo) (p : String) : CmdOutcome × Repo :=
  match f.addFault p with
  | some o => (o, s)
  | none => (.exited 0 "" "", { s with staged := s.staged || s.dirty, dirty := false })

/-- Outcome of `git diff --cached --quiet`: exits 0 when the index holds
no changes and 1 when it does. -/
def diffCachedOutcome (f : Faults) (s : Repo) : CmdOutcome × Repo :=
  (match f.diffFault with
   | some o => o
   | none => .exited (if s.staged then 1 else 0) "" "", s)

/-- Outcome of `git commit -m <msg>`: records the staged changes as a new
commit. -/
def commitOutcome (f : Faults) (s : Repo) (msg : String) : CmdOutcome × Repo :=
  match f.commitFault with
  | some o => (o, s)
  | none =>
    if s.staged then
      (.exited 0 ("[work] committed: " ++ msg) "",
        { s with commits := s.commits + 1, staged := false })
    else
      (.exited 1 "nothing to commit, working tree clean" "", s)

/-- Outcome of `git push [--force] origin <b>`. -/
def pushOutcome (f : Faults) (s : Repo) (b : String) (_force : Bool) : CmdOutcome × Repo :=
  match f.pushFault b with
  | some o => (o, s)
  | none => (.exited 0 "" ("To origin\n   " ++ b ++ " -> " ++ b), { s with pushes := s.pushes + 1 })

/-- Outcome of `git push --set-upstream origin <b>` (equally `-u`). -/
def pushUpstreamOutcome (f : Faults) (s : Repo) (b : String) : CmdOutcome × Repo :=
  match f.pushUFault b with
  | some o => (o, s)
  | none =>
    (.exited 0 "" ("branch " ++ b ++ " set up to track origin/" ++ b),
      { s with pushes := s.pushes + 1 })

/-! ### Code layer: src/git_utils.py (free-function module) -/

/-- Body of the first loop of `get_available_branches` (git_utils.py,
lines 47-57): collect local branch names from plain `git branch` output,
taking unstarred lines verbatim, unmarking the starred current-branch
line, and skipping the parenthesised detached-HEAD annotation. -/
def parseLocalUtils (out : String) : List String :=
  (pySplitLines out).foldl
    (fun acc line =>
      let l := pyStrip line
      if l ≠ "" ∧ ¬ (pyStartsWith l "*" = true) then acc ++ [l]
      else if pyStartsWith l "* " then
        let branchName := pyStrip (pyDrop 2 l)
        if ¬ (pyStartsWith branchName "(" = true) then acc ++ [branchName] else acc
      else acc)
    []

/-- Body of the second loop of `get_available_branches` (git_utils.py,
lines 62-69): extend the accumulated list with remote branch names from
plain `git branch -r` output, skipping the `origin/HEAD` annotation,
dropping the `origin/` prefix, and skipping names already collected. -/
def addRemoteUtils (acc : List String) (out : String) : List String :=
  (pySplitLines out).foldl
    (fun acc line =>
      let l := pyStrip line
      if l ≠ "" ∧ ¬ (pyStartsWith l "origin/HEAD" = true) then
        if pyStartsWith l "origin/" then
          let branchName := pyDrop 7 l
          if ¬ (acc.contains branchName = true) then acc ++ [branchName] else acc
        else acc
      else acc)
    acc

/-- Translation of `get_available_branches` from git_utils.py: list local
branches, list remote branches, and return `list(set(branches))` — the
de-duplicated combination in the iteration order Python's `set` chooses
(`Faults.pySet`). -/
def get_available_branches_utils (f : Faults) (s : Repo) : List String × Repo :=
  let r1 := listOutcome f s
  let q1 := run_git_command_utils r1.1
  let branches1 := if q1.1 then parseLocalUtils q1.2 else []
  let r2 := listROutcome f r1.2
  let q2 := run_git_command_utils r2.1
  let branches2 := if q2.1 then addRemoteUtils branches1 q2.2 else branches1
  (f.pySet branches2, r2.2)

/-- Translation of `is_detached_head` from git_utils.py: scan plain
`git branch` output for a line whose stripped form starts with the
detached-HEAD annotation; a failed listing command yields `false`. -/
def is_detached_head_utils (f : Faults) (s : Repo) : Bool × Repo :=
  let r := listOutcome f s
  let q := run_git_command_utils r.1
  (q.1 && (pySplitLines q.2).any (fun line => pyStartsWith (pyStrip line) "* (HEAD detached"),
    r.2)

/-- Loop of `get_default_branch` (git_utils.py, lines 107-109): the first
candidate present in the available list. -/
def firstIn (avail : List String) : List String → Option String
  | [] => none
  | c :: rest => if avail.contains c then some c else firstIn avail rest

/-- Translation of `get_default_branch` from git_utils.py: resolve
`origin/HEAD` through `git symbolic-ref` and return its target when the
output carries the remote ref prefix; otherwise return the first of
`main`, `master`, `develop`, `development` present among the available
branches; otherwise the first available branch; otherwise nothing. -/
def get_default_branch_utils (f : Faults) (s : Repo) : Option String × Repo :=
  let r := symRefOutcome f s
  let q := run_git_command_utils r.1
  if q.1 ∧ pyContains "refs/remotes/origin/" q.2 = true then
    (some (pyStrip (pyAfterLastSplit "refs/remotes/origin/" q.2)), r.2)
  else
    let a := get_available_branches_utils f r.2
    match firstIn a.1 ["main", "master", "develop", "development"] with
    | some c => (some c, a.2)
    | none =>
      match a.1 with
      | b :: _ => (some b, a.2)
      | [] => (none, a.2)

/-- Translation of `create_branch_from_remote` from git_utils.py: when
`refs/remotes/origin/<b>` verifies, run `git checkout -b <b> origin/<b>`;
otherwise run `git checkout -b <b>`; report whether the checkout
succeeded. -/
def create_branch_from_remote_utils (f : Faults) (s : Repo) (b : String) : Bool × Repo :=
  let r := showRefOutcome f s b
  let q := run_git_command_utils r.1
  if q.1 then
    let r2 := checkoutTrackOutcome f r.2 b
    ((run_git_command_utils r2.1).1, r2.2)
  else
    let r2 := checkoutNewOutcome f r.2 b
    ((run_git_command_utils r2.1).1, r2.2)

/-- Loop of `switch_to_branch` (git_utils.py, lines 189-197) over the
alternative branch names: an alternative present in the available list is
checked out (a failure moves on to the next alternative without a
creation attempt); an absent alternative is materialised through
`create_branch_from_remote`. -/
def tryAlternatives (f : Faults) (s : Repo) (avail : List String) :
    List String → Bool × Repo
  | [] => (false, s)
  | alt :: rest =>
    if avail.contains alt then
      let r := checkoutOutcome f s alt
      if (run_git_command_utils r.1).1 then (true, r.2)
      else tryAlternatives f r.2 avail rest
    else
      let c := create_branch_from_remote_utils f s alt
      if c.1 then (true, c.2) else tryAlternatives f c.2 avail rest

/-- Translation of `switch_to_branch` from git_utils.py: default the
target through `get_default_branch` when none is given (failing when that
is also empty), try a direct checkout, and on checkout failure — only
when the target is absent from the available-branch list — try to
materialise it and fall back to the `main`/`master` alternatives. -/
def switch_to_branch_utils (f : Faults) (s : Repo) (target : Option String) : Bool × Repo :=
  let tb :=
    match target with
    | none => get_default_branch_utils f s
    | some t => (some t, s)
  match tb with
  | (none, s1) => (false, s1)
  | (some t, s1) =>
    let r := checkoutOutcome f s1 t
    if (run_git_command_utils r.1).1 then (true, r.2)
    else
      let a := get_available_branches_utils f r.2
      if ¬ (a.1.contains t = true) then
        let c := create_branch_from_remote_utils f a.2 t
        if c.1 then (true, c.2)
        else
          let alternatives :=
            if ¬ (t = "main" ∨ t = "master") then ["main", "master"] else ["master", "main"]
          tryAlternatives f c.2 a.1 alternatives
      else (false, a.2)

/-- Guard of the upstream retry in `execute_git_push` (git_utils.py,
line 268): the push failure text names a missing upstream. -/
def upstreamHint (out : String) : Bool :=
  pyContains "no upstream branch" (pyLower out) || pyContains "set-upstream" (pyLower out)

/-- Push phase of `execute_git_push` from git_utils.py (lines 243-278):
re-read the current branch, push it to origin, and when the failure text
names a missing upstream retry exactly once with `--set-upstream`. -/
def pushPhaseUtils (f : Faults) (s : Repo) (force : Bool) : Bool × Repo :=
  let rc := showCurrentOutcome f s
  let qc := run_git_command_utils rc.1
  if ¬ (qc.1 ∧ qc.2 ≠ "") then (false, rc.2)
  else
    let rp := pushOutcome f rc.2 qc.2 force
    let qp := run_git_command_utils rp.1
    if qp.1 then (true, rp.2)
    else if upstreamHint qp.2 then
      let ru := pushUpstreamOutcome f rp.2 qc.2
      ((run_git_command_utils ru.1).1, ru.2)
    else (false, rp.2)

/-- Translation of `execute_git_push` from git_utils.py: check status,
resolve the branch to push (switching away from a detached HEAD, or to
the requested target when the current branch cannot be determined), then
run the push phase. -/
def execute_git_push_utils (f : Faults) (s : Repo) (target : Option String) (force : Bool) :
    Bool × Repo :=
  let rs := statusOutcome f s
  if ¬ ((run_git_command_utils rs.1).1 = true) then (false, rs.2)
  else
    let d := is_detached_head_utils f rs.2
    if d.1 then
      let sw := switch_to_branch_utils f d.2 target
      if ¬ (sw.1 = true) then (false, sw.2) else pushPhaseUtils f sw.2 force
    else
      let rc := showCurrentOutcome f d.2
      let qc := run_git_command_utils rc.1
      if qc.1 ∧ qc.2 ≠ "" then pushPhaseUtils f rc.2 force
      else
        match target with
        | some t =>
          let sw := switch_to_branch_utils f rc.2 (some t)
          if ¬ (sw.1 = true) then (false, sw.2) else pushPhaseUtils f sw.2 force
        | none => pushPhaseUtils f rc.2 force

/-! ### Code layer: src/git_operations.py (object-oriented module) -/

/-- Translation of `GitOperations.get_current_branch`: the output of
`git branch --show-current` when the command succeeded and printed a
non-empty name, `none` otherwise. -/
def get_current_branch_oo (f : Faults) (s : Repo) : Option String × Repo :=
  let r := showCurrentOutcome f s
  let q := run_git_command_oo r.1
  (if q.1 ∧ q.2 ≠ "" then some q.2 else none, r.2)

/-- Translation of `GitOperations.is_detached_head`: true exactly when
`get_current_branch` returns nothing. -/
def is_detached_head_oo (f : Faults) (s : Repo) : Bool × Repo :=
  let c := get_current_branch_oo f s
  (c.1.isNone, c.2)

/-- Comprehension building the local list in
`GitOperations.get_available_branches`: stripped non-empty lines of the
`--format=%(refname:short)` listing. -/
def parseLocalOO (out : String) : List String :=
  ((pySplitLines out).filter (fun line => pyStrip line ≠ "")).map (fun line => pyStrip line)

/-- Comprehension building the remote list in
`GitOperations.get_available_branches`: stripped lines that are non-empty
and do not end in `/HEAD`, with every occurrence of `origin/` removed by
`str.replace`. -/
def parseRemoteOO (out : String) : List String :=
  ((pySplitLines out).filter
      (fun line => pyStrip line ≠ "" ∧ ¬ (pyEndsWith (pyStrip line) "/HEAD" = true))).map
    (fun line => pyStripAllOrigin (pyStrip line))

/-- Translation of `GitOperations.get_available_branches`: the local and
remote branch-name lists read from the two `--format=%(refname:short)`
listings; a failed listing contributes an empty list. -/
def get_available_branches_oo (f : Faults) (s : Repo) :
    (List String × List String) × Repo :=
  let r1 := listFmtOutcome f s
  let q1 := run_git_command_oo r1.1
  let localBranches := if q1.1 then parseLocalOO q1.2 else []
  let r2 := listRFmtOutcome f r1.2
  let q2 := run_git_command_oo r2.1
  let remoteBranches := if q2.1 then parseRemoteOO q2.2 else []
  ((localBranches, remoteBranches), r2.2)

/-- Translation of `GitOperations.fetch_remote_branches`. -/
def fetch_remote_branches_oo (f : Faults) (s : Repo) : Bool × Repo :=
  let r := fetchOutcome f s
  ((run_git_command_oo r.1).1, r.2)

/-- Translation of `GitOperations.create_branch_from_remote`: create a
local branch from the remote one through `git fetch origin b:b`. -/
def create_branch_from_remote_oo (f : Faults) (s : Repo) (b : String) : Bool × Repo :=
  let r := fetchBranchOutcome f s b
  ((run_git_command_oo r.1).1, r.2)

/-- Translation of `GitOperations.create_new_branch` (no base branch is
ever supplied by the callers under verification): `git checkout -b b`. -/
def create_new_branch_oo (f : Faults) (s : Repo) (b : String) : Bool × Repo :=
  let r := checkoutNewOutcome f s b
  ((run_git_command_oo r.1).1, r.2)

/-- Translation of `GitOperations.switch_to_branch`: `git checkout b`. -/
def switch_to_branch_oo (f : Faults) (s : Repo) (b : String) : Bool × Repo :=
  let r := checkoutOutcome f s b
  ((run_git_command_oo r.1).1, r.2)

/-- Translation of `GitOperations.find_best_branch`: fetch, combine the
local and remote lists through `list(set(...))`, and pick the first of
`main`, `master`, `develop` present, else the first entry, else nothing. -/
def find_best_branch_oo (f : Faults) (s : Repo) : Option String × Repo :=
  let fr := fetch_remote_branches_oo f s
  let a := get_available_branches_oo f fr.2
  let allAvailable := f.pySet (a.1.1 ++ a.1.2)
  match firstIn allAvailable ["main", "master", "develop"] with
  | some c => (some c, a.2)
  | none =>
    match allAvailable with
    | b :: _ => (some b, a.2)
    | [] => (none, a.2)

/-- Translation of `GitOperations.ensure_branch_available`: nothing to do
for a local branch, fetch a remote-only branch into a local one, create a
brand-new branch otherwise. -/
def ensure_branch_available_oo (f : Faults) (s : Repo) (b : String) : Bool × Repo :=
  let a := get_available_branches_oo f s
  if a.1.1.contains b then (true, a.2)
  else if a.1.2.contains b then create_branch_from_remote_oo f a.2 b
  else create_new_branch_oo f a.2 b

/-- Branch-resolution prologue of `GitOperations.execute_git_push`
(lines 271-297): keep the current branch when there is one; otherwise
find the best branch, creating `main` outright when none is available,
and ensure and switch to the found branch. -/
def resolveCurrentOO (f : Faults) (s : Repo) (cur : Option String) :
    Option String × Repo :=
  match cur with
  | some cb => (some cb, s)
  | none =>
    let tb := find_best_branch_oo f s
    match tb with
    | (none, s1) =>
      let c := create_new_branch_oo f s1 "main"
      (if c.1 then some "main" else none, c.2)
    | (some t, s1) =>
      let e := ensure_branch_available_oo f s1 t
      if ¬ (e.1 = true) then (none, e.2)
      else
        let sw := switch_to_branch_oo f e.2 t
        (if sw.1 then some t else none, sw.2)

/-- Loop of the staging step of `GitOperations.execute_git_push`
(lines 300-305): add the given files one by one, aborting on the first
failure. -/
def stageListOO (f : Faults) (s : Repo) : List String → Bool × Repo
  | [] => (true, s)
  | p :: ps =>
    let r := addOutcome f s p
    if (run_git_command_oo r.1).1 then stageListOO f r.2 ps else (false, r.2)

/-- Staging step of `GitOperations.execute_git_push` (lines 299-310): add
the given files one by one, or everything through `git add .` when the
list is empty or absent (Python's `if files:` treats an empty list like
an absent one). -/
def stageEntryOO (f : Faults) (s : Repo) : Option (List String) → Bool × Repo
  | some (p :: ps) => stageListOO f s (p :: ps)
  | _ =>
    let r := addOutcome f s "."
    ((run_git_command_oo r.1).1, r.2)

/-- Translation of `GitOperations.execute_git_push`: resolve the branch
to push, stage, return success outright when the index shows no staged
difference, commit (with the supplied or a generated message), push, and
on a push failure retry exactly once with `-u` unconditionally. -/
def execute_git_push_oo (f : Faults) (s : Repo) (message : Option String)
    (files : Option (List String)) : Bool × Repo :=
  let cur := get_current_branch_oo f s
  let res := resolveCurrentOO f cur.2 cur.1
  match res with
  | (none, s1) => (false, s1)
  | (some currentBranch, s1) =>
    let st := stageEntryOO f s1 files
    if ¬ (st.1 = true) then (false, st.2)
    else
      let rd := diffCachedOutcome f st.2
      if (run_git_command_oo rd.1).1 then (true, rd.2)
      else
        let commitMessage :=
          match message with
          | some m => m
          | none => "automatic commit " ++ f.now
        let rc := commitOutcome f rd.2 commitMessage
        if ¬ ((run_git_command_oo rc.1).1 = true) then (false, rc.2)
        else
          let rp := pushOutcome f rc.2 currentBranch false
          let qp := run_git_command_oo rp.1
          if qp.1 then (true, rp.2)
          else
            let ru := pushUpstreamOutcome f rp.2 currentBranch
            ((run_git_command_oo ru.1).1, ru.2)

/-- A fault assignment under which every subprocess behaves normally;
`pySet` is instantiated with one admissible iteration order. -/
def cleanFaults : Faults :=
  { pySet := fun l => l.dedup, listFault := none, listRFault := none,
    listFmtFault := none, listRFmtFault := none, showCurrentFault := none,
    statusFault := none, symRefFault := none, showRefFault := fun _ => none,
    checkoutFault := fun _ => none, checkoutNewFault := fun _ => none,
    checkoutTrackFault := fun _ => none, fetchFault := none,
    fetchBranchFault := fun _ => none, addFault := fun _ => none,
    diffFault := none, commitFault := none, pushFault := fun _ => none,
    pushUFault := fun _ => none, now := "" }

/-! ### Basic helper lemmas -/

theorem strData (a b : String) : (a ++ b).data = a.data ++ b.data := by
  cases a; cases b; rfl

theorem strMkData (s : String) : String.mk s.data = s := by cases s; rfl

theorem strEmptyIff (s : String) : s = "" ↔ s.data = [] := by
  constructor
  · intro h; rw [h]
  · intro h
    have := strMkData s
    rw [h] at this
    exact this.symm

theorem strNeEmptyIff (s : String) : s ≠ "" ↔ s.data ≠ [] :=
  not_congr (strEmptyIff s)


theorem dropWhileAllFalse (l : List Char) (h : ∀ c ∈ l, isPyWs c = false) :
    l.dropWhile isPyWs = l := by
  cases l with
  | nil => rfl
  | cons a rest =>
    rw [List.dropWhile_cons]
    simp [h a (by simp)]

theorem stripAllNonWs (l : List Char) (h : ∀ c ∈ l, isPyWs c = false) :
    stripL l = l := by
  unfold stripL
  rw [dropWhileAllFalse l h]
  rw [dropWhileAllFalse l.reverse (fun c hc => h c (List.mem_reverse.mp hc))]
  exact List.reverse_reverse l

theorem validNameNonempty (b : String) (h : validName b = true) : b.data ≠ [] := by
  unfold validName at h
  simp only [Bool.and_eq_true] at h
  intro he
  rw [he] at h
  simp [List.isEmpty] at h

theorem validNameNoWs (b : String) (h : validName b = true) :
    ∀ c ∈ b.data, isPyWs c = false := by
  unfold validName at h
  simp only [Bool.and_eq_true, List.all_eq_true] at h
  intro c hc
  have := h.1.2 c hc
  simp only [Bool.and_eq_true, Bool.not_eq_true'] at this
  exact this.1

theorem validNameNoStar (b : String) (h : validName b = true) :
    ∀ c ∈ b.data, c ≠ '*' := by
  unfold validName at h
  simp only [Bool.and_eq_true, List.all_eq_true] at h
  intro c hc
  have := h.1.2 c hc
  simp only [Bool.and_eq_true, Bool.not_eq_true'] at this
  simpa using this.2

theorem validNameHead (b : String) (h : validName b = true) :
    ∀ c, b.data.headD ' ' = c → c ≠ '(' := by
  unfold validName at h
  simp only [Bool.and_eq_true, Bool.not_eq_true'] at h
  intro c hc hcp
  rw [hc, hcp] at h
  simp at h

theorem validStrip (b : String) (h : validName b = true) : pyStrip b = b := by
  unfold pyStrip
  rw [stripAllNonWs b.data (validNameNoWs b h)]

theorem validNe (b : String) (h : validName b = true) : b ≠ "" :=
  (strNeEmptyIff b).mpr (validNameNonempty b h)

theorem containsIff (l : List String) (a : String) : l.contains a = true ↔ a ∈ l := by
  simp [List.contains]

/-! ### Claim C8 -/

/-- C8: the Command Runner is total — `succeeded` is true exactly when
the subprocess exits with status 0, and timeout expiry and spawn failure
are both reported as `succeeded = false` with a descriptive message, in
both module variants; no outcome is left unhandled. -/
theorem c8_command_runner_total : ∀ o : CmdOutcome,
    ((run_git_command_oo o).1 = true ↔ ∃ out err, o = .exited 0 out err) ∧
    ((run_git_command_utils o).1 = true ↔ ∃ out err, o = .exited 0 out err) ∧
    (run_git_command_oo .timedOut = (false, "Git command timed out")) ∧
    (∀ m, run_git_command_oo (.spawnFailed m) = (false, "Git command failed: " ++ m)) ∧
    ((run_git_command_utils .timedOut).1 = false) ∧
    (∀ m, (run_git_command_utils (.spawnFailed m)).1 = false) := by
  intro o
  refine ⟨?_, ?_, rfl, fun m => rfl, rfl, fun m => rfl⟩ <;>
    cases o with
    | exited code out err =>
      by_cases h : code = 0 <;>
        simp [run_git_command_oo, run_git_command_utils, Nat.beq_eq_true_eq, h]
    | timedOut => simp [run_git_command_oo, run_git_command_utils]
    | spawnFailed m => simp [run_git_command_oo, run_git_command_utils]

/-- Witness for C8 at concrete outcomes. -/
theorem c8_command_runner_total_witness :
    (run_git_command_oo (.exited 0 "ok" "")).1 = true ∧
      (run_git_command_utils (.exited 2 "" "boom")).1 = false :=
  ⟨(c8_command_runner_total (.exited 0 "ok" "")).1.mpr ⟨"ok", "", rfl⟩, by
    have h := (c8_command_runner_total (.exited 2 "" "boom")).2.1
    by_contra hb
    simp only [Bool.not_eq_false] at hb
    obtain ⟨out, err, heq⟩ := h.mp hb
    cases heq⟩

/-! ### Claim C9 -/

/-- C9: the resolver is idempotent — switching to an existing local
branch (with no external obstacle to the checkout) succeeds and makes it
the current branch, and invoking the resolver again while already on that
branch is a no-op success with the same result and end state. -/
theorem c9_resolver_idempotent (f : Faults) (s : Repo) (t : String)
    (hf : f.checkoutFault t = none) (hmem : t ∈ s.localBranches) :
    switch_to_branch_utils f s (some t) = (true, { s with current := some t }) ∧
      switch_to_branch_utils f { s with current := some t } (some t) =
        (true, { s with current := some t }) := by
  have hc : s.localBranches.contains t = true := (containsIff _ _).mpr hmem
  constructor
  · unfold switch_to_branch_utils checkoutOutcome
    simp [hf, hc, hmem, run_git_command_utils]
  · unfold switch_to_branch_utils checkoutOutcome
    simp [hf, hc, hmem, run_git_command_utils]

/-- Witness for C9 at a concrete repository. -/
theorem c9_resolver_idempotent_witness :
    switch_to_branch_utils
        { pySet := fun l => l.dedup, listFault := none, listRFault := none,
          listFmtFault := none, listRFmtFault := none, showCurrentFault := none,
          statusFault := none, symRefFault := none, showRefFault := fun _ => none,
          checkoutFault := fun _ => none, checkoutNewFault := fun _ => none,
          checkoutTrackFault := fun _ => none, fetchFault := none,
          fetchBranchFault := fun _ => none, addFault := fun _ => none,
          diffFault := none, commitFault := none, pushFault := fun _ => none,
          pushUFault := fun _ => none, now := "" }
        { localBranches := ["main", "dev"], remoteBranches := ["main"],
          originHead := none, current := some "main", commits := 3, pushes := 1,
          staged := false, dirty := false }
        (some "dev") =
      (true,
        { localBranches := ["main", "dev"], remoteBranches := ["main"],
          originHead := none, current := some "dev", commits := 3, pushes := 1,
          staged := false, dirty := false }) :=
  (c9_resolver_idempotent _ _ "dev" rfl (by simp)).1

/-! ### Claim C10 -/

/-- C10: in the object-oriented variant, a failure of the underlying
`git branch --show-current` command (non-zero exit, timeout or spawn
failure) makes `get_current_branch` return nothing, so `is_detached_head`
reports a detached HEAD even while the repository is on a named branch:
command failure and detachment are indistinguishable at this interface. -/
theorem c10_oo_detached_on_command_failure (f : Faults) (s : Repo) (b : String)
    (o : CmdOutcome) (hf : f.showCurrentFault = some o)
    (hfail : (run_git_command_oo o).1 = false) (hcur : s.current = some b) :
    (get_current_branch_oo f s).1 = none ∧ (is_detached_head_oo f s).1 = true := by
  unfold is_detached_head_oo get_current_branch_oo showCurrentOutcome queryOut
  simp [hf, hfail, hcur]

/-- Witness for C10: a timed-out query on a repository sitting on
`main`. -/
theorem c10_oo_detached_on_command_failure_witness :
    (is_detached_head_oo
        { pySet := fun l => l, listFault := none, listRFault := none,
          listFmtFault := none, listRFmtFault := none,
          showCurrentFault := some .timedOut, statusFault := none,
          symRefFault := none, showRefFault := fun _ => none,
          checkoutFault := fun _ => none, checkoutNewFault := fun _ => none,
          checkoutTrackFault := fun _ => none, fetchFault := none,
          fetchBranchFault := fun _ => none, addFault := fun _ => none,
          diffFault := none, commitFault := none, pushFault := fun _ => none,
          pushUFault := fun _ => none, now := "" }
        { localBranches := ["main"], remoteBranches := [], originHead := none,
          current := some "main", commits := 0, pushes := 0, staged := false,
          dirty := false }).1 = true :=
  (c10_oo_detached_on_command_failure _ _ "main" .timedOut rfl rfl rfl).2

/-! ### Claim C7 -/

theorem stageCleanNoOp (f : Faults) (s : Repo) (hadd : ∀ p, f.addFault p = none)
    (hst : s.staged = false) (hdt : s.dirty = false) :
    ∀ files : Option (List String), stageEntryOO f s files = (true, s) := by
  have hrepo : { s with staged := s.staged || s.dirty, dirty := false } = s := by
    cases s
    simp_all
  have hone : ∀ p, addOutcome f s p = (.exited 0 "" "", s) := by
    intro p
    unfold addOutcome
    rw [hadd p, hrepo]
  have hlist : ∀ ps : List String, stageListOO f s ps = (true, s) := by
    intro ps
    induction ps with
    | nil => rfl
    | cons p rest ih =>
      unfold stageListOO
      rw [hone p]
      simpa [run_git_command_oo] using ih
  intro files
  match files with
  | some (p :: ps) =>
    unfold stageEntryOO
    exact hlist (p :: ps)
  | some [] =>
    unfold stageEntryOO
    rw [hone "."]
    simp [run_git_command_oo]
  | none =>
    unfold stageEntryOO
    rw [hone "."]
    simp [run_git_command_oo]

/-- C7: when staging succeeds and the staged-changes check reports no
differences against the index, the push operation returns success without
committing or pushing: the repository state — in particular the commit
and push counters — is left untouched, for every commit message, file
selection and fault assignment of the later steps. -/
theorem c7_empty_push_noop (f : Faults) (s : Repo) (c : String)
    (hsc : f.showCurrentFault = none) (hcur : s.current = some c)
    (hval : validName c = true) (hadd : ∀ p, f.addFault p = none)
    (hdiff : f.diffFault = none) (hst : s.staged = false) (hdt : s.dirty = false)
    (message : Option String) (files : Option (List String)) :
    execute_git_push_oo f s message files = (true, s) := by
  unfold execute_git_push_oo
  have hshow : showCurrentOutcome f s = (.exited 0 c "", s) := by
    unfold showCurrentOutcome queryOut
    rw [hsc, hcur]
  have hcb : get_current_branch_oo f s = (some c, s) := by
    unfold get_current_branch_oo
    rw [hshow]
    simp [run_git_command_oo, validStrip c hval, validNe c hval]
  have hstage := stageCleanNoOp f s hadd hst hdt files
  have hdq : diffCachedOutcome f s = (.exited 0 "" "", s) := by
    simp [diffCachedOutcome, hdiff, hst]
  simp [hcb, resolveCurrentOO, hstage, hdq, run_git_command_oo]

/-- Witness for C7 at a concrete repository with a clean index. -/
theorem c7_empty_push_noop_witness :
    execute_git_push_oo
        { pySet := fun l => l.dedup, listFault := none, listRFault := none,
          listFmtFault := none, listRFmtFault := none, showCurrentFault := none,
          statusFault := none, symRefFault := none, showRefFault := fun _ => none,
          checkoutFault := fun _ => none, checkoutNewFault := fun _ => none,
          checkoutTrackFault := fun _ => none, fetchFault := none,
          fetchBranchFault := fun _ => none, addFault := fun _ => none,
          diffFault := none, commitFault := none, pushFault := fun _ => none,
          pushUFault := fun _ => none, now := "2025-08-16 12:00:00" }
        { localBranches := ["main"], remoteBranches := ["main"], originHead := none,
          current := some "main", commits := 5, pushes := 2, staged := false,
          dirty := false }
        (some "update data") none =
      (true,
        { localBranches := ["main"], remoteBranches := ["main"], originHead := none,
          current := some "main", commits := 5, pushes := 2, staged := false,
          dirty := false }) :=
  c7_empty_push_noop _ _ "main" rfl rfl (by decide) (fun _ => rfl) rfl rfl rfl
    (some "update data") none

/-! ### Lemmas about `split(sub)[-1]` for a marker that cannot overlap itself -/

theorem strAppendEmpty (s : String) : s ++ "" = s := by
  cases s with
  | mk l =>
    have : (String.mk l ++ String.mk []).data = l := by
      rw [strData]
      exact List.append_nil l
    calc String.mk l ++ String.mk [] = String.mk (String.mk l ++ String.mk []).data :=
          (strMkData _).symm
      _ = String.mk l := by rw [this]

theorem afterLastNoneIff (sub : List Char) (hsub : sub ≠ []) (l : List Char) :
    afterLastSubAux sub l = none ↔ ∀ i, sub.isPrefixOf (l.drop i) = false := by
  induction l with
  | nil =>
    constructor
    · intro _ i
      cases sub with
      | nil => exact absurd rfl hsub
      | cons a as => simp [List.isPrefixOf]
    · intro _; rfl
  | cons c rest ih =>
    unfold afterLastSubAux
    constructor
    · intro h i
      cases hrec : afterLastSubAux sub rest with
      | some r => rw [hrec] at h; simp at h
      | none =>
        rw [hrec] at h
        by_cases hp : sub.isPrefixOf (c :: rest) = true
        · simp [hp] at h
        · match i with
          | 0 => simpa using (Bool.not_eq_true _).mp hp
          | Nat.succ j => simpa using (ih.mp hrec) j
    · intro h
      have hrest : afterLastSubAux sub rest = none :=
        ih.mpr (fun i => by simpa using h (i + 1))
      rw [hrest]
      have h0 := h 0
      simp only [List.drop_zero] at h0
      simp only [h0]
      simp

theorem afterLastAtZero (sub : List Char) (hsub : sub ≠ []) (l : List Char)
    (h0 : sub.isPrefixOf l = true)
    (hrest : ∀ i, 0 < i → sub.isPrefixOf (l.drop i) = false) :
    afterLastSubAux sub l = some (l.drop sub.length) := by
  cases l with
  | nil =>
    cases sub with
    | nil => exact absurd rfl hsub
    | cons a as => simp [List.isPrefixOf] at h0
  | cons c rest =>
    unfold afterLastSubAux
    have hrec : afterLastSubAux sub rest = none :=
      (afterLastNoneIff sub hsub rest).mpr (fun i => by
        simpa using hrest (i + 1) (Nat.succ_pos i))
    rw [hrec]
    simp [h0]

theorem afterLastOfPrefixFree (sub h : List Char) (hsub : sub ≠ [])
    (hself : ∀ i < sub.length, 0 < i → (sub.drop i).isPrefixOf sub = false)
    (hno : ∀ j, sub.isPrefixOf (h.drop j) = false) :
    afterLastSubAux sub (sub ++ h) = some h := by
  have h0 : sub.isPrefixOf (sub ++ h) = true :=
    List.isPrefixOf_iff_prefix.mpr (List.prefix_append sub h)
  have hrest : ∀ i, 0 < i → sub.isPrefixOf ((sub ++ h).drop i) = false := by
    intro i hi
    by_cases hlen : i < sub.length
    · rw [List.drop_append_of_le_length (le_of_lt hlen)]
      by_contra hn
      rw [Bool.not_eq_false, List.isPrefixOf_iff_prefix] at hn
      have h1 : sub.drop i <+: sub.drop i ++ h := List.prefix_append _ _
      have h2 : sub.drop i <+: sub :=
        List.prefix_of_prefix_length_le h1 hn (by simp)
      have h3 := hself i hlen hi
      rw [← List.isPrefixOf_iff_prefix] at h2
      rw [h2] at h3
      cases h3
    · have hge : sub.length ≤ i := Nat.le_of_not_lt hlen
      rw [List.drop_append_eq_append_drop, List.drop_eq_nil_of_le hge]
      simpa using hno (i - sub.length)
  rw [afterLastAtZero sub hsub (sub ++ h) h0 hrest]
  congr 1
  rw [List.drop_append_eq_append_drop, List.drop_eq_nil_of_le (le_refl _)]
  simp

/-- The symbolic-ref output `refs/remotes/origin/<h>` splits after the
marker exactly to `h`, for any valid branch name `h` that does not itself
contain the marker. -/
theorem afterLastRemoteRef (h : String)
    (hnc : pyContains "refs/remotes/origin/" h = false) :
    afterLastSubAux "refs/remotes/origin/".data ("refs/remotes/origin/" ++ h).data =
      some h.data := by
  rw [strData]
  apply afterLastOfPrefixFree
  · decide
  · decide
  · have hnone : afterLastSubAux "refs/remotes/origin/".data h.data = none := by
      unfold pyContains at hnc
      exact Option.not_isSome_iff_eq_none.mp (by simp [hnc])
    exact (afterLastNoneIff _ (by decide) h.data).mp hnone

/-! ### Claim C1 -/

theorem gdbFallback (f : Faults) (s : Repo) (hsym : f.symRefFault = none)
    (hnone : s.originHead = none) :
    get_default_branch_utils f s =
      (match firstIn (get_available_branches_utils f s).1
          ["main", "master", "develop", "development"] with
       | some c => (some c, (get_available_branches_utils f s).2)
       | none =>
         match (get_available_branches_utils f s).1 with
         | b :: _ => (some b, (get_available_branches_utils f s).2)
         | [] => (none, (get_available_branches_utils f s).2)) := by
  unfold get_default_branch_utils symRefOutcome
  rw [hsym, hnone]
  simp [run_git_command_utils]

/-- Skeleton evaluation of `GitOperations.find_best_branch`: the fetch
result is ignored and leaves the observable state unchanged, so the
selection reduces to the priority scan over `list(set(local + remote))`. -/
theorem fbbSkeleton (f : Faults) (s : Repo) :
    find_best_branch_oo f s =
      (match firstIn (f.pySet ((get_available_branches_oo f s).1.1 ++
          (get_available_branches_oo f s).1.2)) ["main", "master", "develop"] with
       | some c => (some c, (get_available_branches_oo f s).2)
       | none =>
         match f.pySet ((get_available_branches_oo f s).1.1 ++
            (get_available_branches_oo f s).1.2) with
         | b :: _ => (some b, (get_available_branches_oo f s).2)
         | [] => (none, (get_available_branches_oo f s).2)) := rfl

/-- C1 counterexample: the object-oriented `find_best_branch` never
consults the remote symbolic default ref.  With `origin/HEAD` resolvable
and pointing at `trunk` — as the free-function `get_default_branch`
confirms on the same state — and a local branch `main` present,
`find_best_branch` selects `main` instead of the remote default `trunk`
demanded by the claim's resolution order. -/
theorem c1_counterexample :
    (find_best_branch_oo cleanFaults
        { localBranches := ["main"], remoteBranches := ["trunk"],
          originHead := some "trunk", current := some "main", commits := 0,
          pushes := 0, staged := false, dirty := false }).1 = some "main" ∧
    ({ localBranches := ["main"], remoteBranches := ["trunk"],
       originHead := some "trunk", current := some "main", commits := 0,
       pushes := 0, staged := false, dirty := false : Repo }).originHead =
      some "trunk" ∧
    (get_default_branch_utils cleanFaults
        { localBranches := ["main"], remoteBranches := ["trunk"],
          originHead := some "trunk", current := some "main", commits := 0,
          pushes := 0, staged := false, dirty := false }).1 = some "trunk" := by
  decide

/-- C1 amended: the free-function `get_default_branch` follows the
documented resolution order — a resolvable remote symbolic default ref
wins; otherwise the first of `main`, `master`, `develop`, `development`
present among the available branches; otherwise the first available
entry; otherwise nothing.  The object-oriented `find_best_branch` never
consults the remote symbolic default and omits the `development`
candidate: it returns the first of `main`, `master`, `develop` present in
the combined local-and-remote set, else the first entry of that set, else
nothing. -/
theorem c1_amended_default_branch_resolution (f : Faults) (s : Repo) :
    (f.symRefFault = none →
      (∀ hb, s.originHead = some hb → validName hb = true →
          pyContains "refs/remotes/origin/" hb = false →
          (get_default_branch_utils f s).1 = some hb) ∧
        (s.originHead = none →
          (("main" ∈ (get_available_branches_utils f s).1 →
              (get_default_branch_utils f s).1 = some "main") ∧
            ("main" ∉ (get_available_branches_utils f s).1 →
              "master" ∈ (get_available_branches_utils f s).1 →
              (get_default_branch_utils f s).1 = some "master") ∧
            ("main" ∉ (get_available_branches_utils f s).1 →
              "master" ∉ (get_available_branches_utils f s).1 →
              "develop" ∈ (get_available_branches_utils f s).1 →
              (get_default_branch_utils f s).1 = some "develop") ∧
            ("main" ∉ (get_available_branches_utils f s).1 →
              "master" ∉ (get_available_branches_utils f s).1 →
              "develop" ∉ (get_available_branches_utils f s).1 →
              "development" ∈ (get_available_branches_utils f s).1 →
              (get_default_branch_utils f s).1 = some "development") ∧
            ((∀ cand ∈ ["main", "master", "develop", "development"],
                cand ∉ (get_available_branches_utils f s).1) →
              (get_default_branch_utils f s).1 =
                (get_available_branches_utils f s).1.head?)))) ∧
      (("main" ∈ f.pySet ((get_available_branches_oo f s).1.1 ++
            (get_available_branches_oo f s).1.2) →
          (find_best_branch_oo f s).1 = some "main") ∧
        ("main" ∉ f.pySet ((get_available_branches_oo f s).1.1 ++
            (get_available_branches_oo f s).1.2) →
          "master" ∈ f.pySet ((get_available_branches_oo f s).1.1 ++
            (get_available_branches_oo f s).1.2) →
          (find_best_branch_oo f s).1 = some "master") ∧
        ("main" ∉ f.pySet ((get_available_branches_oo f s).1.1 ++
            (get_available_branches_oo f s).1.2) →
          "master" ∉ f.pySet ((get_available_branches_oo f s).1.1 ++
            (get_available_branches_oo f s).1.2) →
          "develop" ∈ f.pySet ((get_available_branches_oo f s).1.1 ++
            (get_available_branches_oo f s).1.2) →
          (find_best_branch_oo f s).1 = some "develop") ∧
        ("main" ∉ f.pySet ((get_available_branches_oo f s).1.1 ++
            (get_available_branches_oo f s).1.2) →
          "master" ∉ f.pySet ((get_available_branches_oo f s).1.1 ++
            (get_available_branches_oo f s).1.2) →
          "develop" ∉ f.pySet ((get_available_branches_oo f s).1.1 ++
            (get_available_branches_oo f s).1.2) →
          (find_best_branch_oo f s).1 =
            (f.pySet ((get_available_branches_oo f s).1.1 ++
              (get_available_branches_oo f s).1.2)).head?)) := by
  constructor
  · intro hsym
    constructor
    · intro hb hoh hval hnc
      have hout : symRefOutcome f s = (.exited 0 ("refs/remotes/origin/" ++ hb) "", s) := by
        unfold symRefOutcome
        rw [hsym, hoh]
      have hallws : ∀ ch ∈ ("refs/remotes/origin/" ++ hb).data, isPyWs ch = false := by
        intro ch hch
        rw [strData] at hch
        rcases List.mem_append.mp hch with h1 | h2
        · exact (by decide : ∀ ch ∈ "refs/remotes/origin/".data, isPyWs ch = false) ch h1
        · exact validNameNoWs hb hval ch h2
      have hstrip : pyStrip ("refs/remotes/origin/" ++ hb) = "refs/remotes/origin/" ++ hb := by
        unfold pyStrip
        rw [stripAllNonWs _ hallws]
      have hcont : pyContains "refs/remotes/origin/" ("refs/remotes/origin/" ++ hb) = true := by
        unfold pyContains
        rw [afterLastRemoteRef hb hnc]
        rfl
      have hsplit :
          pyAfterLastSplit "refs/remotes/origin/" ("refs/remotes/origin/" ++ hb) = hb := by
        unfold pyAfterLastSplit
        rw [afterLastRemoteRef hb hnc]
        exact strMkData hb
      have hq : run_git_command_utils
          (CmdOutcome.exited 0 ("refs/remotes/origin/" ++ hb) "") =
          (true, "refs/remotes/origin/" ++ hb) := by
        have hse : pyStrip "" = "" := rfl
        simp [run_git_command_utils, hstrip, hse, strAppendEmpty]
      unfold get_default_branch_utils
      simp [hout, hq, hcont, hsplit, validStrip hb hval]
    · intro hnone
      refine ⟨?_, ?_, ?_, ?_, ?_⟩
      · intro hm
        rw [gdbFallback f s hsym hnone]
        simp [firstIn, containsIff, hm]
      · intro hnm hm
        rw [gdbFallback f s hsym hnone]
        simp [firstIn, containsIff, hnm, hm]
      · intro h1 h2 hm
        rw [gdbFallback f s hsym hnone]
        simp [firstIn, containsIff, h1, h2, hm]
      · intro h1 h2 h3 hm
        rw [gdbFallback f s hsym hnone]
        simp [firstIn, containsIff, h1, h2, h3, hm]
      · intro hcands
        have h1 := hcands "main" (by simp)
        have h2 := hcands "master" (by simp)
        have h3 := hcands "develop" (by simp)
        have h4 := hcands "development" (by simp)
        rw [gdbFallback f s hsym hnone]
        cases hA : (get_available_branches_utils f s).1 with
        | nil => simp [firstIn, containsIff, h1, h2, h3, h4, hA]
        | cons b bs =>
          rw [hA] at h1 h2 h3 h4
          simp [firstIn, containsIff, h1, h2, h3, h4, hA]
  · refine ⟨?_, ?_, ?_, ?_⟩
    · intro hm
      rw [fbbSkeleton]
      simp [firstIn, containsIff, hm]
    · intro h1 hm
      rw [fbbSkeleton]
      simp [firstIn, containsIff, h1, hm]
    · intro h1 h2 hm
      rw [fbbSkeleton]
      simp [firstIn, containsIff, h1, h2, hm]
    · intro h1 h2 h3
      rw [fbbSkeleton]
      cases hA : f.pySet ((get_available_branches_oo f s).1.1 ++
          (get_available_branches_oo f s).1.2) with
      | nil => simp [firstIn, containsIff, h1, h2, h3, hA]
      | cons b bs =>
        rw [hA] at h1 h2 h3
        simp [firstIn, containsIff, h1, h2, h3, hA]

/-- Witness for the amended C1: the remote symbolic default `trunk` wins
in the free-function variant. -/
theorem c1_amended_default_branch_resolution_witness :
    (get_default_branch_utils
        { pySet := fun l => l.dedup, listFault := none, listRFault := none,
          listFmtFault := none, listRFmtFault := none, showCurrentFault := none,
          statusFault := none, symRefFault := none, showRefFault := fun _ => none,
          checkoutFault := fun _ => none, checkoutNewFault := fun _ => none,
          checkoutTrackFault := fun _ => none, fetchFault := none,
          fetchBranchFault := fun _ => none, addFault := fun _ => none,
          diffFault := none, commitFault := none, pushFault := fun _ => none,
          pushUFault := fun _ => none, now := "" }
        { localBranches := ["main", "master"], remoteBranches := ["trunk"],
          originHead := some "trunk", current := some "main", commits := 0,
          pushes := 0, staged := false, dirty := false }).1 = some "trunk" :=
  (((c1_amended_default_branch_resolution _ _).1 rfl).1) "trunk" rfl (by decide)
    (by decide)

/-! ### Claim C4 -/

/-- C4 counterexample: at the claim's scenario — no target, detached
HEAD, no local branches, no remote branches — the object-oriented
`execute_git_push` does not fail without creating a branch: it creates a
brand-new branch `main` through `create_new_branch` and completes
successfully, leaving the created branch behind. -/
theorem c4_counterexample :
    (execute_git_push_oo cleanFaults
        { localBranches := [], remoteBranches := [], originHead := none,
          current := none, commits := 0, pushes := 0, staged := false,
          dirty := false }
        none none).1 = true ∧
    (execute_git_push_oo cleanFaults
        { localBranches := [], remoteBranches := [], originHead := none,
          current := none, commits := 0, pushes := 0, staged := false,
          dirty := false }
        none none).2.localBranches = ["main"] ∧
    ({ localBranches := [], remoteBranches := [], originHead := none,
       current := none, commits := 0, pushes := 0, staged := false,
       dirty := false : Repo }).localBranches = [] ∧
    ({ localBranches := [], remoteBranches := [], originHead := none,
       current := none, commits := 0, pushes := 0, staged := false,
       dirty := false : Repo }).current = none := by
  decide

/-- C4 amended: without a target branch on a detached repository with no
local branches, no remote branches and no remote default, the
free-function resolver fails (reason: no branch available) and creates
nothing — the repository state is returned unchanged; the object-oriented
push in the same situation instead creates a brand-new branch `main` from
the current HEAD and proceeds, failing only on a tool-level failure of
that creation step. -/
theorem c4_amended_no_branch_available (f : Faults) (s : Repo) :
    ((∀ xs x, x ∈ f.pySet xs ↔ x ∈ xs) →
      f.symRefFault = none → f.listFault = none → f.listRFault = none →
      s.localBranches = [] → s.remoteBranches = [] → s.originHead = none →
      s.current = none →
      switch_to_branch_utils f s none = (false, s)) ∧
    ((∀ xs x, x ∈ f.pySet xs ↔ x ∈ xs) →
      f.showCurrentFault = none → f.listFmtFault = none →
      f.listRFmtFault = none → f.checkoutNewFault "main" = none →
      (∀ p, f.addFault p = none) → f.diffFault = none →
      s.localBranches = [] → s.remoteBranches = [] → s.originHead = none →
      s.current = none → s.staged = false → s.dirty = false →
      execute_git_push_oo f s none none =
        (true, { s with localBranches := ["main"], current := some "main" })) := by
  constructor
  · intro hset hsym hlist hlistR hloc hrem hoh hcur
    have hempty : f.pySet [] = [] :=
      List.eq_nil_iff_forall_not_mem.mpr (fun x hx => by simpa using (hset [] x).mp hx)
    have hav : get_available_branches_utils f s = (f.pySet [], s) := by
      unfold get_available_branches_utils listOutcome listROutcome queryOut
      rw [hlist, hlistR]
      have h1 : branchListingOut s = "* (HEAD detached at 1234abc)" := by
        unfold branchListingOut branchLinesData
        rw [hcur, hloc]
        rfl
      have h2 : branchRListingOut s = "" := by
        unfold branchRListingOut branchRLinesData
        rw [hoh, hrem]
        rfl
      have h3 : run_git_command_utils
          (CmdOutcome.exited 0 "* (HEAD detached at 1234abc)" "") =
          (true, "* (HEAD detached at 1234abc)") := by decide
      have h4 : parseLocalUtils "* (HEAD detached at 1234abc)" = [] := by decide
      have h5 : run_git_command_utils (CmdOutcome.exited 0 "" "") = (true, "") := by decide
      have h6 : addRemoteUtils [] "" = [] := by decide
      simp only [h1, h2, h3, h4, h5, h6, if_true]
    have hgdb : get_default_branch_utils f s = (none, s) := by
      rw [gdbFallback f s hsym hoh]
      rw [hav, hempty]
      simp [firstIn]
    unfold switch_to_branch_utils
    simp [hgdb]
  · intro hset hsc hlf hlr hcn hadd hdiff hloc hrem hoh hcur hst hdt
    have hempty : f.pySet [] = [] :=
      List.eq_nil_iff_forall_not_mem.mpr (fun x hx => by simpa using (hset [] x).mp hx)
    have hq : run_git_command_oo (CmdOutcome.exited 0 "" "") = (true, "") := by decide
    have hcb : get_current_branch_oo f s = (none, s) := by
      simp only [get_current_branch_oo, showCurrentOutcome, queryOut, hsc, hcur]
      rw [hq]
      simp
    have hav : get_available_branches_oo f s = (([], []), s) := by
      simp only [get_available_branches_oo, listFmtOutcome, listRFmtOutcome,
        queryOut, hlf, hlr]
      have h1 : branchFmtOut s = "" := by
        unfold branchFmtOut
        rw [hloc]
        rfl
      have h2 : branchRFmtOut s = "" := by
        unfold branchRFmtOut
        rw [hoh, hrem]
        rfl
      have h6 : parseLocalOO "" = [] := by decide
      have h7 : parseRemoteOO "" = [] := by decide
      rw [h1, h2, hq]
      simp [h6, h7]
    have hfbb : find_best_branch_oo f s = (none, s) := by
      rw [fbbSkeleton, hav]
      simp only [List.nil_append]
      rw [hempty]
      rfl
    have hnew : create_new_branch_oo f s "main" =
        (true, { s with localBranches := ["main"], current := some "main" }) := by
      simp only [create_new_branch_oo, checkoutNewOutcome, hcn, hloc]
      simp [run_git_command_oo]
    have hres : resolveCurrentOO f s none =
        (some "main", { s with localBranches := ["main"], current := some "main" }) := by
      simp only [resolveCurrentOO, hfbb, hnew]
      simp
    have hstage : stageEntryOO f
        { s with localBranches := ["main"], current := some "main" } none =
        (true, { s with localBranches := ["main"], current := some "main" }) :=
      stageCleanNoOp f { s with localBranches := ["main"], current := some "main" }
        hadd hst hdt none
    have hdq : diffCachedOutcome f
        { s with localBranches := ["main"], current := some "main" } =
        (CmdOutcome.exited 0 "" "",
          { s with localBranches := ["main"], current := some "main" }) := by
      simp [diffCachedOutcome, hdiff, hst]
    simp only [execute_git_push_oo, hcb, hres, hstage, hdq]
    rw [hq]
    simp

/-- Witness for the amended C4: the empty detached repository, with the
identity as the set-iteration order. -/
theorem c4_amended_no_branch_available_witness :
    switch_to_branch_utils { cleanFaults with pySet := fun l => l }
        { localBranches := [], remoteBranches := [], originHead := none,
          current := none, commits := 7, pushes := 0, staged := false,
          dirty := true }
        none =
      (false,
        { localBranches := [], remoteBranches := [], originHead := none,
          current := none, commits := 7, pushes := 0, staged := false,
          dirty := true }) :=
  (c4_amended_no_branch_available _ _).1 (fun _ _ => Iff.rfl) rfl rfl rfl rfl rfl
    rfl rfl

/-! ### Claim C2 -/

/-- A failed direct checkout leaves the repository state unchanged. -/
theorem checkoutFailState (f : Faults) (s : Repo) (t : String)
    (hfail : (run_git_command_utils (checkoutOutcome f s t).1).1 = false) :
    (checkoutOutcome f s t).2 = s := by
  cases hf : f.checkoutFault t with
  | some o =>
    unfold checkoutOutcome
    rw [hf]
  | none =>
    unfold checkoutOutcome at hfail ⊢
    rw [hf] at hfail ⊢
    by_cases h1 : s.localBranches.contains t = true
    · rw [if_pos h1] at hfail
      simp [run_git_command_utils] at hfail
    · rw [if_neg h1] at hfail ⊢
      by_cases h2 : s.remoteBranches.contains t = true
      · rw [if_pos h2] at hfail
        simp [run_git_command_utils] at hfail
      · rw [if_neg h2]

/-- C2 counterexample: the direct checkout of `feature` fails while
`feature` is present in the available-branch list (an external obstacle,
here an injected checkout failure on a dirty tree); the claim demands a
fallback to the alternative-name search, and indeed `main` is available
and its checkout would succeed — yet the resolver returns failure without
trying any alternative. -/
theorem c2_counterexample :
    switch_to_branch_utils
        { cleanFaults with
          checkoutFault := fun b =>
            if b = "feature" then
              some (.exited 1 "" "error: Your local changes would be overwritten")
            else none }
        { localBranches := ["feature", "main"], remoteBranches := [],
          originHead := none, current := some "main", commits := 0, pushes := 0,
          staged := false, dirty := true }
        (some "feature") =
      (false,
        { localBranches := ["feature", "main"], remoteBranches := [],
          originHead := none, current := some "main", commits := 0, pushes := 0,
          staged := false, dirty := true }) ∧
    "feature" ∈
      (get_available_branches_utils
          { cleanFaults with
            checkoutFault := fun b =>
              if b = "feature" then
                some (.exited 1 "" "error: Your local changes would be overwritten")
              else none }
          { localBranches := ["feature", "main"], remoteBranches := [],
            originHead := none, current := some "main", commits := 0, pushes := 0,
            staged := false, dirty := true }).1 ∧
    "main" ∈
      (get_available_branches_utils
          { cleanFaults with
            checkoutFault := fun b =>
              if b = "feature" then
                some (.exited 1 "" "error: Your local changes would be overwritten")
              else none }
          { localBranches := ["feature", "main"], remoteBranches := [],
            originHead := none, current := some "main", commits := 0, pushes := 0,
            staged := false, dirty := true }).1 ∧
    (run_git_command_utils
        (checkoutOutcome
            { cleanFaults with
              checkoutFault := fun b =>
                if b = "feature" then
                  some (.exited 1 "" "error: Your local changes would be overwritten")
                else none }
            { localBranches := ["feature", "main"], remoteBranches := [],
              originHead := none, current := some "main", commits := 0, pushes := 0,
              staged := false, dirty := true }
            "main").1).1 = true := by
  decide

/-- C2 amended: when the direct checkout fails the alternative-name
search runs only if the target is absent from the available-branch list
and materialisation also fails; if the target is present in the list, the
resolver returns failure immediately, with the state unchanged and no
alternative tried. -/
theorem c2_amended_fallback_only_when_absent (f : Faults) (s : Repo) (t : String) :
    ((run_git_command_utils (checkoutOutcome f s t).1).1 = false →
      t ∈ (get_available_branches_utils f s).1 →
      switch_to_branch_utils f s (some t) = (false, s)) ∧
    ((run_git_command_utils (checkoutOutcome f s t).1).1 = false →
      t ∉ (get_available_branches_utils f s).1 →
      create_branch_from_remote_utils f s t = (false, s) →
      switch_to_branch_utils f s (some t) =
        tryAlternatives f s (get_available_branches_utils f s).1
          (if ¬ (t = "main" ∨ t = "master") then ["main", "master"]
           else ["master", "main"])) := by
  constructor
  · intro hfail hmem
    have hst := checkoutFailState f s t hfail
    have hmemb : (get_available_branches_utils f s).1.contains t = true :=
      (containsIff _ _).mpr hmem
    have hsnd : (get_available_branches_utils f s).2 = s := rfl
    unfold switch_to_branch_utils
    simp [hfail, hst, hmem, hsnd]
  · intro hfail hmem hcreate
    have hst := checkoutFailState f s t hfail
    have hsnd : (get_available_branches_utils f s).2 = s := rfl
    unfold switch_to_branch_utils
    simp [hfail, hst, hmem, hsnd, hcreate]

/-- Witness for the amended C2 at the counterexample situation. -/
theorem c2_amended_fallback_only_when_absent_witness :
    switch_to_branch_utils
        { cleanFaults with
          checkoutFault := fun b =>
            if b = "feature" then some (.exited 1 "" "error: checkout blocked")
            else none }
        { localBranches := ["feature", "main"], remoteBranches := [],
          originHead := none, current := some "main", commits := 1, pushes := 0,
          staged := false, dirty := true }
        (some "feature") =
      (false,
        { localBranches := ["feature", "main"], remoteBranches := [],
          originHead := none, current := some "main", commits := 1, pushes := 0,
          staged := false, dirty := true }) :=
  (c2_amended_fallback_only_when_absent _ _ "feature").1 (by decide) (by decide)

/-! ### Splitting, joining and stripping listing output -/

theorem splitNonempty : ∀ l : List Char, splitLinesL l ≠ [] := by
  intro l
  induction l with
  | nil => simp [splitLinesL]
  | cons c rest ih =>
    unfold splitLinesL
    cases h : splitLinesL rest with
    | nil => simp
    | cons a as =>
      by_cases hc : c = '\n' <;> simp [hc]

theorem splitNoNl (l : List Char) (h : ∀ c ∈ l, c ≠ '\n') : splitLinesL l = [l] := by
  induction l with
  | nil => rfl
  | cons c rest ih =>
    rw [splitLinesL]
    rw [ih (fun x hx => h x (by simp [hx]))]
    simp [h c (by simp)]

theorem splitAppendNl (l rest : List Char) (h : ∀ c ∈ l, c ≠ '\n') :
    splitLinesL (l ++ '\n' :: rest) = l :: splitLinesL rest := by
  induction l with
  | nil =>
    simp only [List.nil_append]
    rw [splitLinesL]
    cases hs : splitLinesL rest with
    | nil => exact absurd hs (splitNonempty rest)
    | cons a as => simp
  | cons c cs ih =>
    simp only [List.cons_append]
    rw [splitLinesL]
    rw [ih (fun x hx => h x (by simp [hx]))]
    simp [h c (by simp)]

theorem splitJoin (lines : List (List Char)) (hne : lines ≠ [])
    (h : ∀ l ∈ lines, ∀ c ∈ l, c ≠ '\n') : splitLinesL (joinL lines) = lines := by
  induction lines with
  | nil => exact absurd rfl hne
  | cons l ls ih =>
    cases ls with
    | nil =>
      show splitLinesL (joinL [l]) = [l]
      unfold joinL
      exact splitNoNl l (h l (by simp))
    | cons l2 ls2 =>
      show splitLinesL (joinL (l :: l2 :: ls2)) = l :: l2 :: ls2
      unfold joinL
      rw [splitAppendNl _ _ (h l (by simp))]
      rw [ih (by simp) (fun x hx c hc => h x (List.mem_cons_of_mem _ hx) c hc)]

theorem dropWhileAppend (p : Char → Bool) (a b : List Char)
    (h : a.dropWhile p ≠ []) : (a ++ b).dropWhile p = a.dropWhile p ++ b := by
  induction a with
  | nil => exact absurd rfl h
  | cons x xs ih =>
    by_cases hx : p x = true
    · rw [List.cons_append, List.dropWhile_cons_of_pos hx, List.dropWhile_cons_of_pos hx]
      rw [List.dropWhile_cons_of_pos hx] at h
      exact ih h
    · rw [List.cons_append, List.dropWhile_cons_of_neg hx, List.dropWhile_cons_of_neg hx]
      rfl

theorem joinNonempty (lines : List (List Char)) (hne : lines ≠ [])
    (h : ∀ l ∈ lines, l ≠ []) : joinL lines ≠ [] := by
  cases lines with
  | nil => exact absurd rfl hne
  | cons l ls =>
    cases ls with
    | nil => exact h l (by simp)
    | cons l2 ls2 =>
      show l ++ '\n' :: joinL (l2 :: ls2) ≠ []
      simp

theorem joinLastMem (lines : List (List Char)) (h : ∀ l ∈ lines, l ≠ []) :
    ∀ a, (joinL lines).getLast? = some a → ∃ l ∈ lines, l.getLast? = some a := by
  induction lines with
  | nil => intro a ha; simp [joinL] at ha
  | cons l ls ih =>
    cases ls with
    | nil =>
      intro a ha
      exact ⟨l, by simp, by simpa [joinL] using ha⟩
    | cons l2 ls2 =>
      intro a ha
      have hj : joinL (l2 :: ls2) ≠ [] :=
        joinNonempty _ (by simp) (fun x hx => h x (List.mem_cons_of_mem _ hx))
      rw [show joinL (l :: l2 :: ls2) = l ++ '\n' :: joinL (l2 :: ls2) from rfl] at ha
      rw [List.getLast?_append_of_ne_nil l (by simp)] at ha
      have hstep : ('\n' :: joinL (l2 :: ls2)).getLast? = (joinL (l2 :: ls2)).getLast? := by
        cases hjj : joinL (l2 :: ls2) with
        | nil => exact absurd hjj hj
        | cons b bs => simp [List.getLast?_cons_cons]
      rw [hstep] at ha
      obtain ⟨x, hx, hxa⟩ := ih (fun y hy => h y (List.mem_cons_of_mem _ hy)) a ha
      exact ⟨x, List.mem_cons_of_mem _ hx, hxa⟩

theorem dropTrailNoWs (l : List Char)
    (h : ∀ a, l.getLast? = some a → isPyWs a = false) :
    (l.reverse.dropWhile isPyWs).reverse = l := by
  cases hr : l.reverse with
  | nil =>
    have : l = [] := by simpa using congrArg List.reverse hr
    simp [this]
  | cons a as =>
    have hga : l.getLast? = some a := by
      rw [← List.head?_reverse, hr]
      rfl
    rw [List.dropWhile_cons_of_neg (by simp [h a hga])]
    rw [← hr, List.reverse_reverse]

/-- Stripping the joined listing output only removes leading whitespace
of the first line, provided the last character of the text is not
whitespace. -/
theorem stripJoinGen (l0 : List Char) (ls : List (List Char))
    (hd : l0.dropWhile isPyWs ≠ [])
    (hne : ∀ l ∈ l0.dropWhile isPyWs :: ls, l ≠ [])
    (hlast : ∀ l ∈ l0.dropWhile isPyWs :: ls, ∀ a, l.getLast? = some a → isPyWs a = false) :
    stripL (joinL (l0 :: ls)) = joinL (l0.dropWhile isPyWs :: ls) := by
  have hlead : (joinL (l0 :: ls)).dropWhile isPyWs = joinL (l0.dropWhile isPyWs :: ls) := by
    cases ls with
    | nil => rfl
    | cons l2 ls2 =>
      show (l0 ++ '\n' :: joinL (l2 :: ls2)).dropWhile isPyWs =
        l0.dropWhile isPyWs ++ '\n' :: joinL (l2 :: ls2)
      exact dropWhileAppend _ _ _ hd
  unfold stripL
  rw [hlead]
  apply dropTrailNoWs
  intro a ha
  obtain ⟨l, hl, hla⟩ := joinLastMem _ hne a ha
  exact hlast l hl a hla

theorem anyMap (l : List (List Char)) (f : List Char → String) (q : String → Bool) :
    (l.map f).any q = l.any (fun x => q (f x)) := by
  induction l with
  | nil => rfl
  | cons a as ih => simp [List.any_cons, ih]

/-! ### The detached-HEAD annotation never matches a branch line -/

theorem validNoNl (b : String) (hv : validName b = true) : ∀ c ∈ b.data, c ≠ '\n' := by
  intro c hc he
  have := validNameNoWs b hv c hc
  rw [he] at this
  simp [isPyWs] at this

theorem getLastPrependNoWs (x y : Char) (b : String) (hv : validName b = true) :
    ∀ a, (x :: y :: b.data).getLast? = some a → isPyWs a = false := by
  intro a ha
  have hne := validNameNonempty b hv
  rw [show (x :: y :: b.data) = [x, y] ++ b.data from rfl,
    List.getLast?_append_of_ne_nil _ hne] at ha
  exact validNameNoWs b hv a (List.mem_of_mem_getLast? ha)

theorem stripStarLine (c : String) (hv : validName c = true) :
    stripL ('*' :: ' ' :: c.data) = '*' :: ' ' :: c.data := by
  unfold stripL
  rw [List.dropWhile_cons_of_neg (by decide)]
  exact dropTrailNoWs _ (getLastPrependNoWs '*' ' ' c hv)

theorem stripIndentLine (b : String) (hv : validName b = true) :
    stripL (' ' :: ' ' :: b.data) = b.data := by
  unfold stripL
  rw [List.dropWhile_cons_of_pos (by decide), List.dropWhile_cons_of_pos (by decide)]
  rw [dropWhileAllFalse b.data (validNameNoWs b hv)]
  exact dropTrailNoWs _ (fun a ha => validNameNoWs b hv a (List.mem_of_mem_getLast? ha))

theorem notMarkerStarL (c : String) (hv : validName c = true) :
    "* (HEAD detached".data.isPrefixOf ('*' :: ' ' :: c.data) = false := by
  by_cases hp : "* (HEAD detached".data.isPrefixOf ('*' :: ' ' :: c.data) = true
  · exfalso
    obtain ⟨t, ht⟩ := List.isPrefixOf_iff_prefix.mp hp
    rw [show "* (HEAD detached".data = '*' :: ' ' :: '(' :: "HEAD detached".data from rfl] at ht
    simp only [List.cons_append, List.cons.injEq, true_and] at ht
    exact validNameHead c hv '(' (by rw [← ht]; rfl) rfl
  · exact (Bool.not_eq_true _).mp hp

theorem notMarkerNameL (b : String) (hv : validName b = true) :
    "* (HEAD detached".data.isPrefixOf b.data = false := by
  by_cases hp : "* (HEAD detached".data.isPrefixOf b.data = true
  · exfalso
    obtain ⟨t, ht⟩ := List.isPrefixOf_iff_prefix.mp hp
    rw [show "* (HEAD detached".data = '*' :: "* (HEAD detached".data.tail from rfl] at ht
    rw [List.cons_append] at ht
    have hstar : '*' ∈ b.data := by
      rw [← ht]
      simp
    exact validNameNoStar b hv '*' hstar rfl
  · exact (Bool.not_eq_true _).mp hp

/-! ### Well-formedness projections -/

theorem wfLocal (s : Repo) (h : s.wfB = true) :
    ∀ b ∈ s.localBranches, validName b = true := by
  unfold Repo.wfB at h
  simp only [Bool.and_eq_true, List.all_eq_true] at h
  exact h.1.1.1

theorem wfRemote (s : Repo) (h : s.wfB = true) :
    ∀ b ∈ s.remoteBranches, validName b = true := by
  unfold Repo.wfB at h
  simp only [Bool.and_eq_true, List.all_eq_true] at h
  exact h.1.1.2

theorem wfCurrent (s : Repo) (h : s.wfB = true) :
    ∀ c, s.current = some c → validName c = true := by
  unfold Repo.wfB at h
  simp only [Bool.and_eq_true, List.all_eq_true] at h
  intro c hc
  have := h.1.2
  rw [hc] at this
  exact this

theorem anyFalse (l : List (List Char)) (q : List Char → Bool)
    (h : ∀ x ∈ l, q x = false) : l.any q = false := by
  induction l with
  | nil => rfl
  | cons a as ih =>
    rw [List.any_cons, h a (by simp), ih (fun x hx => h x (List.mem_cons_of_mem _ hx))]
    rfl

theorem predLineFalse (c x : String) (hv : validName x = true) :
    "* (HEAD detached".data.isPrefixOf (stripL (localLine (some c) x)) = false := by
  simp only [localLine]
  by_cases hbc : (x == c) = true
  · rw [if_pos hbc, stripStarLine x hv]
    exact notMarkerStarL x hv
  · rw [if_neg hbc, stripIndentLine x hv]
    exact notMarkerNameL x hv

theorem lineLastNoWs (c x : String) (hv : validName x = true) :
    ∀ a, (localLine (some c) x).getLast? = some a → isPyWs a = false := by
  simp only [localLine]
  by_cases hbc : (x == c) = true
  · rw [if_pos hbc]
    exact getLastPrependNoWs '*' ' ' x hv
  · rw [if_neg hbc]
    exact getLastPrependNoWs ' ' ' ' x hv

theorem lineNoNl (c x : String) (hv : validName x = true) :
    ∀ ch ∈ localLine (some c) x, ch ≠ '\n' := by
  intro ch hch
  simp only [localLine] at hch
  by_cases hbc : (x == c) = true
  · rw [if_pos hbc] at hch
    simp only [List.mem_cons] at hch
    rcases hch with h1 | h1 | h1
    · subst h1; decide
    · subst h1; decide
    · exact validNoNl x hv ch h1
  · rw [if_neg hbc] at hch
    simp only [List.mem_cons] at hch
    rcases hch with h1 | h1 | h1
    · subst h1; decide
    · subst h1; decide
    · exact validNoNl x hv ch h1

theorem lineNonempty (c x : String) : localLine (some c) x ≠ [] := by
  simp only [localLine]
  by_cases hbc : (x == c) = true
  · rw [if_pos hbc]; simp
  · rw [if_neg hbc]; simp

/-- Evaluation of the scan for the detached-HEAD annotation over the
model's plain `git branch` output: the annotation is found exactly when
HEAD is detached. -/
theorem anyMarkerGen (s : Repo) (hwf : s.wfB = true) :
    (pySplitLines (pyStrip (branchListingOut s))).any
        (fun line => pyStartsWith (pyStrip line) "* (HEAD detached") =
      s.current.isNone := by
  have hmap : (pySplitLines (pyStrip (branchListingOut s))).any
      (fun line => pyStartsWith (pyStrip line) "* (HEAD detached") =
      (splitLinesL (stripL (joinL (branchLinesData s)))).any
        (fun l => "* (HEAD detached".data.isPrefixOf (stripL l)) := by
    unfold pySplitLines pyStrip pyStartsWith branchListingOut
    rw [anyMap]
  rw [hmap]
  cases hc : s.current with
  | none =>
    have hlines : branchLinesData s =
        detachedMarker :: s.localBranches.map (fun b => ' ' :: ' ' :: b.data) := by
      unfold branchLinesData
      rw [hc]
    rw [hlines]
    have hdm : List.dropWhile isPyWs detachedMarker = detachedMarker := by decide
    have hne : ∀ l ∈ List.dropWhile isPyWs detachedMarker ::
        s.localBranches.map (fun b => ' ' :: ' ' :: b.data), l ≠ [] := by
      rw [hdm]
      intro l hl
      rcases List.mem_cons.mp hl with h1 | h2
      · rw [h1]; decide
      · obtain ⟨b, _, rfl⟩ := List.mem_map.mp h2
        simp
    have hlast : ∀ l ∈ List.dropWhile isPyWs detachedMarker ::
        s.localBranches.map (fun b => ' ' :: ' ' :: b.data),
        ∀ a, l.getLast? = some a → isPyWs a = false := by
      rw [hdm]
      intro l hl a ha
      rcases List.mem_cons.mp hl with h1 | h2
      · subst h1
        rw [show detachedMarker.getLast? = some ')' from by decide] at ha
        have := Option.some.inj ha
        rw [← this]
        decide
      · obtain ⟨b, hb, rfl⟩ := List.mem_map.mp h2
        exact getLastPrependNoWs ' ' ' ' b (wfLocal s hwf b hb) a ha
    have hnl : ∀ l ∈ detachedMarker ::
        s.localBranches.map (fun b => ' ' :: ' ' :: b.data), ∀ ch ∈ l, ch ≠ '\n' := by
      intro l hml ch hch
      rcases List.mem_cons.mp hml with h1 | h2
      · subst h1
        exact (by decide : ∀ ch ∈ detachedMarker, ch ≠ '\n') ch hch
      · obtain ⟨b, hb, rfl⟩ := List.mem_map.mp h2
        simp only [List.mem_cons] at hch
        rcases hch with h1 | h1 | h1
        · subst h1; decide
        · subst h1; decide
        · exact validNoNl b (wfLocal s hwf b hb) ch h1
    rw [stripJoinGen _ _ (by rw [hdm]; decide) hne hlast, hdm]
    rw [splitJoin _ (by simp) hnl]
    rw [List.any_cons]
    rw [show "* (HEAD detached".data.isPrefixOf (stripL detachedMarker) = true from by decide]
    simp
  | some c =>
    have hlines : branchLinesData s = s.localBranches.map (localLine (some c)) := by
      unfold branchLinesData
      rw [hc]
    rw [hlines]
    cases hl : s.localBranches with
    | nil =>
      rw [show (([] : List String).map (localLine (some c))) = [] from rfl]
      rw [show (splitLinesL (stripL (joinL []))).any
          (fun l => "* (HEAD detached".data.isPrefixOf (stripL l)) = false from by decide]
      simp
    | cons b bs =>
      have hvb : validName b = true := wfLocal s hwf b (by rw [hl]; simp)
      have hvbs : ∀ x ∈ bs, validName x = true :=
        fun x hx => wfLocal s hwf x (by rw [hl]; exact List.mem_cons_of_mem _ hx)
      rw [List.map_cons]
      have hdl : (localLine (some c) b).dropWhile isPyWs =
          if (b == c) = true then localLine (some c) b else b.data := by
        simp only [localLine]
        by_cases hbc : (b == c) = true
        · rw [if_pos hbc, if_pos hbc, List.dropWhile_cons_of_neg (by decide)]
        · rw [if_neg hbc, if_neg hbc, List.dropWhile_cons_of_pos (by decide),
            List.dropWhile_cons_of_pos (by decide)]
          exact dropWhileAllFalse b.data (validNameNoWs b hvb)
      have hdlne : (localLine (some c) b).dropWhile isPyWs ≠ [] := by
        rw [hdl]
        by_cases hbc : (b == c) = true
        · rw [if_pos hbc]; exact lineNonempty c b
        · rw [if_neg hbc]; exact validNameNonempty b hvb
      have hdllast : ∀ a, ((localLine (some c) b).dropWhile isPyWs).getLast? = some a →
          isPyWs a = false := by
        rw [hdl]
        by_cases hbc : (b == c) = true
        · rw [if_pos hbc]; exact lineLastNoWs c b hvb
        · rw [if_neg hbc]
          exact fun a ha => validNameNoWs b hvb a (List.mem_of_mem_getLast? ha)
      have hdlpred : "* (HEAD detached".data.isPrefixOf
          (stripL ((localLine (some c) b).dropWhile isPyWs)) = false := by
        rw [hdl]
        by_cases hbc : (b == c) = true
        · rw [if_pos hbc]; exact predLineFalse c b hvb
        · rw [if_neg hbc]
          rw [stripAllNonWs b.data (validNameNoWs b hvb)]
          exact notMarkerNameL b hvb
      have hne : ∀ l ∈ (localLine (some c) b).dropWhile isPyWs ::
          bs.map (localLine (some c)), l ≠ [] := by
        intro l hmem
        rcases List.mem_cons.mp hmem with h1 | h2
        · rw [h1]; exact hdlne
        · obtain ⟨x, _, rfl⟩ := List.mem_map.mp h2
          exact lineNonempty c x
      have hlast : ∀ l ∈ (localLine (some c) b).dropWhile isPyWs ::
          bs.map (localLine (some c)), ∀ a, l.getLast? = some a → isPyWs a = false := by
        intro l hmem a ha
        rcases List.mem_cons.mp hmem with h1 | h2
        · rw [h1] at ha; exact hdllast a ha
        · obtain ⟨x, hx, rfl⟩ := List.mem_map.mp h2
          exact lineLastNoWs c x (hvbs x hx) a ha
      have hnl : ∀ l ∈ (localLine (some c) b).dropWhile isPyWs ::
          bs.map (localLine (some c)), ∀ ch ∈ l, ch ≠ '\n' := by
        intro l hmem ch hch
        rcases List.mem_cons.mp hmem with h1 | h2
        · subst h1
          exact lineNoNl c b hvb ch ((List.dropWhile_sublist _).subset hch)
        · obtain ⟨x, hx, rfl⟩ := List.mem_map.mp h2
          exact lineNoNl c x (hvbs x hx) ch hch
      rw [stripJoinGen _ _ hdlne hne hlast]
      rw [splitJoin _ (by simp) hnl]
      rw [List.any_cons, hdlpred]
      rw [anyFalse _ _ (fun x hx => by
        obtain ⟨y, hy, rfl⟩ := List.mem_map.mp hx
        exact predLineFalse c y (hvbs y hy))]
      simp

/-- The free-function `is_detached_head` evaluates, under a successful
listing command, to whether HEAD is detached. -/
theorem isDetachedUtilsEval (f : Faults) (s : Repo) (hlist : f.listFault = none)
    (hwf : s.wfB = true) : is_detached_head_utils f s = (s.current.isNone, s) := by
  unfold is_detached_head_utils listOutcome queryOut
  rw [hlist]
  have hq : run_git_command_utils (CmdOutcome.exited 0 (branchListingOut s) "") =
      (true, pyStrip (branchListingOut s)) := by
    show (_, pyStrip (branchListingOut s) ++ pyStrip "") = _
    rw [show pyStrip "" = "" from rfl, strAppendEmpty]
    rfl
  simp only [hq, Bool.true_and]
  rw [anyMarkerGen s hwf]

/-- The object-oriented `is_detached_head` evaluates, under a successful
current-branch query, to whether HEAD is detached. -/
theorem isDetachedOOEval (f : Faults) (s : Repo) (hsc : f.showCurrentFault = none)
    (hwf : s.wfB = true) : is_detached_head_oo f s = (s.current.isNone, s) := by
  unfold is_detached_head_oo get_current_branch_oo showCurrentOutcome queryOut
  rw [hsc]
  cases hc : s.current with
  | none => simp [run_git_command_oo, show pyStrip "" = "" from rfl]
  | some c =>
    have hv := wfCurrent s hwf c hc
    simp [run_git_command_oo, validStrip c hv, validNe c hv]

/-! ### Claim C6 -/

/-- C6 counterexample: the two detached-HEAD detection variants are not
equivalent over all repository states.  On a repository sitting on branch
`main` whose `git branch --show-current` invocation times out while the
plain `git branch` listing works, the object-oriented variant reports a
detached HEAD although HEAD points at a branch tip, and the free-function
variant disagrees with it. -/
theorem c6_counterexample :
    (is_detached_head_oo { cleanFaults with showCurrentFault := some .timedOut }
        { localBranches := ["main"], remoteBranches := [], originHead := none,
          current := some "main", commits := 0, pushes := 0, staged := false,
          dirty := false }).1 = true ∧
    (is_detached_head_utils { cleanFaults with showCurrentFault := some .timedOut }
        { localBranches := ["main"], remoteBranches := [], originHead := none,
          current := some "main", commits := 0, pushes := 0, staged := false,
          dirty := false }).1 = false ∧
    ({ localBranches := ["main"], remoteBranches := [], originHead := none,
       current := some "main", commits := 0, pushes := 0, staged := false,
       dirty := false : Repo }).current = some "main" := by
  decide

/-- C6 amended: the two detached-HEAD detection variants agree — and are
true precisely when HEAD does not point at a branch tip — on every
well-formed repository state in which the underlying branch queries
succeed; a failing query makes them diverge (see the counterexample and
C10). -/
theorem c6_amended_detached_equivalence (f : Faults) (s : Repo)
    (hwf : s.wfB = true) (hlist : f.listFault = none)
    (hsc : f.showCurrentFault = none) :
    (is_detached_head_utils f s).1 = (is_detached_head_oo f s).1 ∧
      ((is_detached_head_oo f s).1 = true ↔ s.current = none) := by
  rw [isDetachedUtilsEval f s hlist hwf, isDetachedOOEval f s hsc hwf]
  exact ⟨rfl, by simp [Option.isNone_iff_eq_none]⟩

/-- Witness for the amended C6 on a repository on branch `main`. -/
theorem c6_amended_detached_equivalence_witness :
    (is_detached_head_utils cleanFaults
        { localBranches := ["main", "dev"], remoteBranches := ["main"],
          originHead := some "main", current := some "dev", commits := 2,
          pushes := 0, staged := false, dirty := false }).1 =
      (is_detached_head_oo cleanFaults
        { localBranches := ["main", "dev"], remoteBranches := ["main"],
          originHead := some "main", current := some "dev", commits := 2,
          pushes := 0, staged := false, dirty := false }).1 :=
  (c6_amended_detached_equivalence cleanFaults _ (by decide) rfl rfl).1

/-! ### Claim C3 -/

/-- When the status query, listing and current-branch query all work and
the repository is on a named branch, the free-function push operation
reduces to its push phase. -/
theorem executeUtilsToPushPhase (f : Faults) (s : Repo) (target : Option String)
    (force : Bool) (hst : f.statusFault = none) (hwf : s.wfB = true)
    (hlist : f.listFault = none) (hsc : f.showCurrentFault = none) (c : String)
    (hc : s.current = some c) :
    execute_git_push_utils f s target force = pushPhaseUtils f s force := by
  have hval := wfCurrent s hwf c hc
  unfold execute_git_push_utils statusOutcome queryOut
  rw [hst]
  have hdet : is_detached_head_utils f s = (false, s) := by
    rw [isDetachedUtilsEval f s hlist hwf, hc]
    rfl
  have hshow : showCurrentOutcome f s = (.exited 0 c "", s) := by
    unfold showCurrentOutcome queryOut
    rw [hsc, hc]
  have hqc : run_git_command_utils (CmdOutcome.exited 0 c "") = (true, c) := by
    show (_, pyStrip c ++ pyStrip "") = _
    rw [validStrip c hval, show pyStrip "" = "" from rfl, strAppendEmpty]
    rfl
  have hrt : ∀ a b, (run_git_command_utils (CmdOutcome.exited 0 a b)).1 = true :=
    fun a b => rfl
  simp [hrt, hdet, hshow, hqc, validNe c hval]

/-- C3 counterexample: in the object-oriented variant a push failure
whose text does not indicate a missing upstream (an authentication
failure) does not terminate the operation — the unconditional `-u` retry
runs, succeeds, and the overall push operation reports success with a
second push performed. -/
theorem c3_counterexample :
    (execute_git_push_oo
        { cleanFaults with
          pushFault := fun b =>
            if b = "main" then some (.exited 1 "" "remote: Authentication failed")
            else none }
        { localBranches := ["main"], remoteBranches := ["main"], originHead := none,
          current := some "main", commits := 0, pushes := 0, staged := false,
          dirty := true }
        none none).1 = true ∧
    (execute_git_push_oo
        { cleanFaults with
          pushFault := fun b =>
            if b = "main" then some (.exited 1 "" "remote: Authentication failed")
            else none }
        { localBranches := ["main"], remoteBranches := ["main"], originHead := none,
          current := some "main", commits := 0, pushes := 0, staged := false,
          dirty := true }
        none none).2.pushes = 1 ∧
    upstreamHint "remote: Authentication failed" = false := by
  decide

/-- C3 amended: the free-function variant retries exactly once, and only
when the push failure text names a missing upstream (otherwise the
operation terminates with failure at once); the object-oriented variant
retries exactly once unconditionally on any first-push failure.  In both
variants the operation's result is then the retry's result, so a failed
retry is terminal. -/
theorem c3_amended_upstream_retry (f : Faults) (s : Repo) (c : String)
    (o : CmdOutcome) (force : Bool) (target : Option String) (msg : Option String) :
    (f.statusFault = none → f.listFault = none → f.showCurrentFault = none →
      s.wfB = true → s.current = some c →
      f.pushFault c = some o → (run_git_command_utils o).1 = false →
      ((upstreamHint (run_git_command_utils o).2 = false →
          execute_git_push_utils f s target force = (false, s)) ∧
        (upstreamHint (run_git_command_utils o).2 = true →
          execute_git_push_utils f s target force =
            ((run_git_command_utils (pushUpstreamOutcome f s c).1).1,
              (pushUpstreamOutcome f s c).2)))) ∧
      (f.showCurrentFault = none → s.wfB = true → s.current = some c →
        (∀ p, f.addFault p = none) → f.diffFault = none → f.commitFault = none →
        (s.staged || s.dirty) = true →
        f.pushFault c = some o → (run_git_command_oo o).1 = false →
        execute_git_push_oo f s msg none =
          ((run_git_command_oo (pushUpstreamOutcome f
              { s with commits := s.commits + 1, staged := false, dirty := false }
              c).1).1,
            (pushUpstreamOutcome f
              { s with commits := s.commits + 1, staged := false, dirty := false }
              c).2)) := by
  constructor
  · intro hst hlist hsc hwf hc hpf hfail
    have hval := wfCurrent s hwf c hc
    rw [executeUtilsToPushPhase f s target force hst hwf hlist hsc c hc]
    unfold pushPhaseUtils showCurrentOutcome queryOut
    rw [hsc, hc]
    have hqc : run_git_command_utils (CmdOutcome.exited 0 c "") = (true, c) := by
      show (_, pyStrip c ++ pyStrip "") = _
      rw [validStrip c hval, show pyStrip "" = "" from rfl, strAppendEmpty]
      rfl
    have hpo : pushOutcome f s c force = (o, s) := by
      unfold pushOutcome
      rw [hpf]
    constructor
    · intro hhint
      simp [hqc, validNe c hval, hpo, hfail, hhint]
    · intro hhint
      simp [hqc, validNe c hval, hpo, hfail, hhint]
  · intro hsc hwf hc hadd hdiff hcommit hstaged hpf hfail
    have hval := wfCurrent s hwf c hc
    unfold execute_git_push_oo
    have hshow : showCurrentOutcome f s = (.exited 0 c "", s) := by
      unfold showCurrentOutcome queryOut
      rw [hsc, hc]
    have hcb : get_current_branch_oo f s = (some c, s) := by
      unfold get_current_branch_oo
      rw [hshow]
      simp [run_git_command_oo, validStrip c hval, validNe c hval]
    have hstage : stageEntryOO f s none =
        (true, { s with staged := s.staged || s.dirty, dirty := false }) := by
      unfold stageEntryOO addOutcome
      rw [hadd "."]
      simp [run_git_command_oo]
    have hdq : diffCachedOutcome f { s with staged := s.staged || s.dirty, dirty := false } =
        (.exited 1 "" "", { s with staged := s.staged || s.dirty, dirty := false }) := by
      simp [diffCachedOutcome, hdiff, hstaged]
    have hcm : commitOutcome f { s with staged := s.staged || s.dirty, dirty := false }
        (match msg with
         | some m => m
         | none => "automatic commit " ++ f.now) =
        (.exited 0 ("[work] committed: " ++
            (match msg with
             | some m => m
             | none => "automatic commit " ++ f.now)) "",
          { s with commits := s.commits + 1, staged := false, dirty := false }) := by
      unfold commitOutcome
      rw [hcommit, hstaged]
      rfl
    have hpo : pushOutcome f
        { s with commits := s.commits + 1, staged := false, dirty := false } c false =
        (o, { s with commits := s.commits + 1, staged := false, dirty := false }) := by
      unfold pushOutcome
      rw [hpf]
    have hrt : ∀ a b, (run_git_command_oo (CmdOutcome.exited 0 a b)).1 = true :=
      fun a b => rfl
    have hrf : (run_git_command_oo (CmdOutcome.exited 1 "" "")).1 = false := rfl
    simp [hcb, resolveCurrentOO, hstage, hdq, hcm, hpo, hfail, hrt, hrf]

/-- Witness for the amended C3: a non-upstream push failure in the
free-function variant terminates the operation with failure. -/
theorem c3_amended_upstream_retry_witness :
    execute_git_push_utils
        { cleanFaults with
          pushFault := fun b =>
            if b = "main" then some (.exited 128 "" "error: failed to push some refs")
            else none }
        { localBranches := ["main"], remoteBranches := ["main"], originHead := none,
          current := some "main", commits := 4, pushes := 0, staged := false,
          dirty := false }
        none false =
      (false,
        { localBranches := ["main"], remoteBranches := ["main"], originHead := none,
          current := some "main", commits := 4, pushes := 0, staged := false,
          dirty := false }) :=
  ((c3_amended_upstream_retry _ _ "main" (.exited 128 "" "error: failed to push some refs")
        false none none).1
      rfl rfl rfl (by decide) rfl (by decide) (by decide)).1 (by decide)

/-! ### Claim C5 -/

theorem stripAllOriginCons (c : Char) (rest : List Char) :
    stripAllOrigin (c :: rest) =
      if "origin/".data.isPrefixOf (c :: rest) = true then
        stripAllOrigin ((c :: rest).drop 7)
      else c :: stripAllOrigin rest := by
  rw [stripAllOrigin.eq_def]
  split
  next r2 heq =>
    have hp : "origin/".data.isPrefixOf (c :: rest) = true := by
      rw [heq]
      simp [List.isPrefixOf]
    rw [if_pos hp, heq]
    rfl
  next cc rr hno heq =>
    injection heq with h1 h2
    subst h1
    subst h2
    have hnp : ¬ ("origin/".data.isPrefixOf (c :: rest) = true) := by
      intro hp
      obtain ⟨t, ht⟩ := List.isPrefixOf_iff_prefix.mp hp
      have hform : c :: rest = 'o' :: 'r' :: 'i' :: 'g' :: 'i' :: 'n' :: '/' :: t := by
        rw [← ht]
        rfl
      injection hform with hc hrest
      exact hno t hc hrest
    rw [if_neg hnp]
  next heq =>
    exact absurd heq (by simp)

theorem stripAllNoOccur (l : List Char)
    (h : ∀ i, "origin/".data.isPrefixOf (l.drop i) = false) :
    stripAllOrigin l = l := by
  induction l with
  | nil => rfl
  | cons c rest ih =>
    rw [stripAllOriginCons]
    have h0 := h 0
    simp only [List.drop_zero] at h0
    rw [if_neg (by simp [h0])]
    rw [ih (fun i => by
      have hi := h (i + 1)
      simpa only [List.drop_succ_cons] using hi)]

/-- For a branch name without an embedded `origin/`, removing every
occurrence of `origin/` from `origin/<b>` yields exactly `b` — so only
then does `str.replace` agree with prefix stripping. -/
theorem stripAllOriginOfClean (b : String) (hno : pyContains "origin/" b = false) :
    pyStripAllOrigin ("origin/" ++ b) = b := by
  unfold pyStripAllOrigin
  rw [strData]
  have h1 : stripAllOrigin ("origin/".data ++ b.data) = stripAllOrigin b.data := rfl
  rw [h1]
  have hnone : afterLastSubAux "origin/".data b.data = none := by
    unfold pyContains at hno
    exact Option.not_isSome_iff_eq_none.mp (by simp [hno])
  rw [stripAllNoOccur b.data
    (fun i => (afterLastNoneIff "origin/".data (by decide) b.data).mp hnone i)]

theorem originLineNoWs (b : String) (hv : validName b = true) :
    ∀ ch ∈ ("origin/" ++ b).data, isPyWs ch = false := by
  intro ch hch
  rw [strData] at hch
  rcases List.mem_append.mp hch with h1 | h2
  · exact (by decide : ∀ ch ∈ "origin/".data, isPyWs ch = false) ch h1
  · exact validNameNoWs b hv ch h2

theorem validStripOrigin (b : String) (hv : validName b = true) :
    pyStrip ("origin/" ++ b) = "origin/" ++ b := by
  unfold pyStrip
  rw [stripAllNonWs _ (originLineNoWs b hv)]

/-- The filter-and-strip comprehension of the object-oriented local
parser is the identity on a list of valid branch names. -/
theorem filterStripNames (names : List String)
    (hv : ∀ b ∈ names, validName b = true) :
    ((names.filter (fun line => pyStrip line ≠ "")).map (fun line => pyStrip line)) =
      names := by
  induction names with
  | nil => rfl
  | cons b bs ih =>
    have hb := hv b (by simp)
    have hbs := ih (fun x hx => hv x (List.mem_cons_of_mem _ hx))
    simp only [ne_eq, decide_not] at hbs
    simp [List.filter_cons, validStrip b hb, validNe b hb, hbs]

theorem parseLocalFmtGen (s : Repo) (hwf : s.wfB = true) :
    parseLocalOO (pyStrip (branchFmtOut s)) = s.localBranches := by
  cases hl : s.localBranches with
  | nil =>
    unfold branchFmtOut
    rw [hl]
    decide
  | cons b bs =>
    have hvb : validName b = true := wfLocal s hwf b (by rw [hl]; simp)
    have hvbs : ∀ x ∈ b :: bs, validName x = true := fun x hx =>
      wfLocal s hwf x (by rw [hl]; exact hx)
    unfold branchFmtOut
    rw [hl, List.map_cons]
    have hdw : b.data.dropWhile isPyWs = b.data :=
      dropWhileAllFalse _ (validNameNoWs b hvb)
    have hne : ∀ l ∈ b.data.dropWhile isPyWs :: bs.map String.data, l ≠ [] := by
      rw [hdw]
      intro l hmem
      rcases List.mem_cons.mp hmem with h1 | h2
      · rw [h1]; exact validNameNonempty b hvb
      · obtain ⟨x, hx, rfl⟩ := List.mem_map.mp h2
        exact validNameNonempty x (hvbs x (List.mem_cons_of_mem _ hx))
    have hlast : ∀ l ∈ b.data.dropWhile isPyWs :: bs.map String.data,
        ∀ a, l.getLast? = some a → isPyWs a = false := by
      rw [hdw]
      intro l hmem a ha
      rcases List.mem_cons.mp hmem with h1 | h2
      · rw [h1] at ha
        exact validNameNoWs b hvb a (List.mem_of_mem_getLast? ha)
      · obtain ⟨x, hx, rfl⟩ := List.mem_map.mp h2
        exact validNameNoWs x (hvbs x (List.mem_cons_of_mem _ hx)) a
          (List.mem_of_mem_getLast? ha)
    have hnl : ∀ l ∈ b.data :: bs.map String.data, ∀ c ∈ l, c ≠ '\n' := by
      intro l hmem c hc
      rcases List.mem_cons.mp hmem with h1 | h2
      · subst h1
        exact validNoNl b hvb c hc
      · obtain ⟨x, hx, rfl⟩ := List.mem_map.mp h2
        exact validNoNl x (hvbs x (List.mem_cons_of_mem _ hx)) c hc
    have hstrip : pyStrip (String.mk (joinL (b.data :: bs.map String.data))) =
        String.mk (joinL (b.data :: bs.map String.data)) := by
      unfold pyStrip
      rw [show (String.mk (joinL (b.data :: bs.map String.data))).data =
        joinL (b.data :: bs.map String.data) from rfl]
      rw [stripJoinGen _ _ (by rw [hdw]; exact validNameNonempty b hvb) hne hlast, hdw]
    rw [hstrip]
    unfold parseLocalOO pySplitLines
    rw [show (String.mk (joinL (b.data :: bs.map String.data))).data =
      joinL (b.data :: bs.map String.data) from rfl]
    rw [splitJoin _ (by simp) hnl]
    have hmk : (b.data :: bs.map String.data).map String.mk = b :: bs := by
      rw [List.map_cons, strMkData, List.map_map]
      congr 1
      calc bs.map (String.mk ∘ String.data) = bs.map id :=
            List.map_congr_left (fun x _ => strMkData x)
        _ = bs := List.map_id bs
    rw [hmk]
    exact filterStripNames (b :: bs) hvbs

theorem parseRemoteNames (names : List String)
    (hv : ∀ b ∈ names, validName b = true)
    (hhead : ∀ b ∈ names, pyEndsWith ("origin/" ++ b) "/HEAD" = false) :
    ((names.map (fun b => "origin/" ++ b)).filter
        (fun line => pyStrip line ≠ "" ∧ ¬ (pyEndsWith (pyStrip line) "/HEAD" = true))).map
      (fun line => pyStripAllOrigin (pyStrip line)) =
      names.map (fun b => pyStripAllOrigin ("origin/" ++ b)) := by
  induction names with
  | nil => rfl
  | cons b bs ih =>
    have hb := hv b (by simp)
    have hbs := ih (fun x hx => hv x (List.mem_cons_of_mem _ hx))
      (fun x hx => hhead x (List.mem_cons_of_mem _ hx))
    have hne : ("origin/" ++ b) ≠ "" := by
      rw [strNeEmptyIff, strData]
      simp
    simp at hbs
    simp [List.filter_cons, validStripOrigin b hb, hne, hhead b (by simp), hbs]

theorem originLineNe (b : String) : ("origin/" ++ b).data ≠ [] := by
  rw [strData]
  simp

theorem originLineNoNl (b : String) (hv : validName b = true) :
    ∀ c ∈ ("origin/" ++ b).data, c ≠ '\n' := by
  intro c hc he
  have h1 := originLineNoWs b hv c hc
  rw [he] at h1
  exact absurd h1 (by decide)

theorem mapMkData (L : List String) : L.map (String.mk ∘ String.data) = L := by
  induction L with
  | nil => rfl
  | cons a as ih =>
    simp only [List.map_cons]
    show String.mk a.data :: as.map _ = a :: as
    rw [strMkData a, ih]

theorem parseRemoteFmtGen (s : Repo) (hwf : s.wfB = true)
    (hhead : ∀ b ∈ s.remoteBranches, pyEndsWith ("origin/" ++ b) "/HEAD" = false) :
    parseRemoteOO (pyStrip (branchRFmtOut s)) =
      s.remoteBranches.map (fun b => pyStripAllOrigin ("origin/" ++ b)) := by
  have hvr : ∀ b ∈ s.remoteBranches, validName b = true := wfRemote s hwf
  unfold branchRFmtOut
  cases hoh : s.originHead with
  | none =>
    cases hrm : s.remoteBranches with
    | nil => decide
    | cons r rs =>
      have hvr2 : ∀ x ∈ r :: rs, validName x = true := fun x hx => by
        rw [← hrm] at hx
        exact hvr x hx
      have hhead2 : ∀ x ∈ r :: rs, pyEndsWith ("origin/" ++ x) "/HEAD" = false :=
        fun x hx => by
          rw [← hrm] at hx
          exact hhead x hx
      simp only [List.nil_append, List.map_cons]
      have hdw : ("origin/" ++ r).data.dropWhile isPyWs = ("origin/" ++ r).data :=
        dropWhileAllFalse _ (originLineNoWs r (hvr2 r (by simp)))
      have hne : ∀ l ∈ ("origin/" ++ r).data.dropWhile isPyWs ::
          rs.map (fun b => ("origin/" ++ b).data), l ≠ [] := by
        rw [hdw]
        intro l hmem
        rcases List.mem_cons.mp hmem with h1 | h2
        · rw [h1]; exact originLineNe r
        · obtain ⟨x, _, rfl⟩ := List.mem_map.mp h2
          exact originLineNe x
      have hlast : ∀ l ∈ ("origin/" ++ r).data.dropWhile isPyWs ::
          rs.map (fun b => ("origin/" ++ b).data),
          ∀ a, l.getLast? = some a → isPyWs a = false := by
        rw [hdw]
        intro l hmem a ha
        rcases List.mem_cons.mp hmem with h1 | h2
        · rw [h1] at ha
          exact originLineNoWs r (hvr2 r (by simp)) a (List.mem_of_mem_getLast? ha)
        · obtain ⟨x, hx, rfl⟩ := List.mem_map.mp h2
          exact originLineNoWs x (hvr2 x (List.mem_cons_of_mem _ hx)) a
            (List.mem_of_mem_getLast? ha)
      have hnl : ∀ l ∈ ("origin/" ++ r).data ::
          rs.map (fun b => ("origin/" ++ b).data), ∀ c ∈ l, c ≠ '\n' := by
        intro l hmem c hc
        rcases List.mem_cons.mp hmem with h1 | h2
        · subst h1
          exact originLineNoNl r (hvr2 r (by simp)) c hc
        · obtain ⟨x, hx, rfl⟩ := List.mem_map.mp h2
          exact originLineNoNl x (hvr2 x (List.mem_cons_of_mem _ hx)) c hc
      have hstrip : pyStrip (String.mk (joinL (("origin/" ++ r).data ::
          rs.map (fun b => ("origin/" ++ b).data)))) =
          String.mk (joinL (("origin/" ++ r).data ::
            rs.map (fun b => ("origin/" ++ b).data))) := by
        unfold pyStrip
        rw [show (String.mk (joinL (("origin/" ++ r).data ::
          rs.map (fun b => ("origin/" ++ b).data)))).data =
          joinL (("origin/" ++ r).data :: rs.map (fun b => ("origin/" ++ b).data))
          from rfl]
        rw [stripJoinGen _ _ (by rw [hdw]; exact originLineNe r) hne hlast, hdw]
      rw [hstrip]
      unfold parseRemoteOO pySplitLines
      rw [show (String.mk (joinL (("origin/" ++ r).data ::
        rs.map (fun b => ("origin/" ++ b).data)))).data =
        joinL (("origin/" ++ r).data :: rs.map (fun b => ("origin/" ++ b).data))
        from rfl]
      rw [splitJoin _ (by simp) hnl]
      rw [show ("origin/" ++ r).data :: rs.map (fun b => ("origin/" ++ b).data) =
        ((r :: rs).map (fun b => "origin/" ++ b)).map String.data from by
          simp [List.map_map]]
      rw [show (((r :: rs).map (fun b => "origin/" ++ b)).map String.data).map
          String.mk = (r :: rs).map (fun b => "origin/" ++ b) from by
        rw [List.map_map]
        exact mapMkData _]
      exact parseRemoteNames (r :: rs) hvr2 hhead2
  | some h =>
    cases hrm : s.remoteBranches with
    | nil =>
      show parseRemoteOO (pyStrip (String.mk (joinL (["origin/HEAD".data] ++
        List.map (fun b => ("origin/" ++ b).data) [])))) =
        List.map (fun b => pyStripAllOrigin ("origin/" ++ b)) []
      decide
    | cons r rs =>
      have hvr2 : ∀ x ∈ r :: rs, validName x = true := fun x hx => by
        rw [← hrm] at hx
        exact hvr x hx
      have hhead2 : ∀ x ∈ r :: rs, pyEndsWith ("origin/" ++ x) "/HEAD" = false :=
        fun x hx => by
          rw [← hrm] at hx
          exact hhead x hx
      simp only [List.cons_append, List.nil_append, List.map_cons]
      have hne : ∀ l ∈ ("origin/HEAD".data).dropWhile isPyWs ::
          (("origin/" ++ r).data :: rs.map (fun b => ("origin/" ++ b).data)), l ≠ [] := by
        rw [show ("origin/HEAD".data).dropWhile isPyWs = "origin/HEAD".data from by decide]
        intro l hmem
        rcases List.mem_cons.mp hmem with h1 | h2
        · rw [h1]; decide
        · rcases List.mem_cons.mp h2 with h3 | h4
          · rw [h3]; exact originLineNe r
          · obtain ⟨x, _, rfl⟩ := List.mem_map.mp h4
            exact originLineNe x
      have hlast : ∀ l ∈ ("origin/HEAD".data).dropWhile isPyWs ::
          (("origin/" ++ r).data :: rs.map (fun b => ("origin/" ++ b).data)),
          ∀ a, l.getLast? = some a → isPyWs a = false := by
        rw [show ("origin/HEAD".data).dropWhile isPyWs = "origin/HEAD".data from by decide]
        intro l hmem a ha
        rcases List.mem_cons.mp hmem with h1 | h2
        · subst h1
          rw [show ("origin/HEAD".data).getLast? = some 'D' from by decide] at ha
          have := Option.some.inj ha
          rw [← this]
          decide
        · rcases List.mem_cons.mp h2 with h3 | h4
          · rw [h3] at ha
            exact originLineNoWs r (hvr2 r (by simp)) a (List.mem_of_mem_getLast? ha)
          · obtain ⟨x, hx, rfl⟩ := List.mem_map.mp h4
            exact originLineNoWs x (hvr2 x (List.mem_cons_of_mem _ hx)) a
              (List.mem_of_mem_getLast? ha)
      have hnl : ∀ l ∈ "origin/HEAD".data ::
          (("origin/" ++ r).data :: rs.map (fun b => ("origin/" ++ b).data)),
          ∀ c ∈ l, c ≠ '\n' := by
        intro l hmem c hc
        rcases List.mem_cons.mp hmem with h1 | h2
        · subst h1
          exact (by decide : ∀ c ∈ "origin/HEAD".data, c ≠ '\n') c hc
        · rcases List.mem_cons.mp h2 with h3 | h4
          · subst h3
            exact originLineNoNl r (hvr2 r (by simp)) c hc
          · obtain ⟨x, hx, rfl⟩ := List.mem_map.mp h4
            exact originLineNoNl x (hvr2 x (List.mem_cons_of_mem _ hx)) c hc
      have hstrip : pyStrip (String.mk (joinL ("origin/HEAD".data ::
          ("origin/" ++ r).data :: rs.map (fun b => ("origin/" ++ b).data)))) =
          String.mk (joinL ("origin/HEAD".data ::
            ("origin/" ++ r).data :: rs.map (fun b => ("origin/" ++ b).data))) := by
        unfold pyStrip
        rw [show (String.mk (joinL ("origin/HEAD".data ::
          ("origin/" ++ r).data :: rs.map (fun b => ("origin/" ++ b).data)))).data =
          joinL ("origin/HEAD".data ::
            ("origin/" ++ r).data :: rs.map (fun b => ("origin/" ++ b).data))
          from rfl]
        rw [stripJoinGen _ _ (by decide) hne hlast,
          show ("origin/HEAD".data).dropWhile isPyWs = "origin/HEAD".data from by decide]
      rw [hstrip]
      unfold parseRemoteOO pySplitLines
      rw [show (String.mk (joinL ("origin/HEAD".data ::
        ("origin/" ++ r).data :: rs.map (fun b => ("origin/" ++ b).data)))).data =
        joinL ("origin/HEAD".data ::
          ("origin/" ++ r).data :: rs.map (fun b => ("origin/" ++ b).data))
        from rfl]
      rw [splitJoin _ (by simp) hnl]
      rw [List.map_cons]
      rw [show String.mk "origin/HEAD".data = "origin/HEAD" from rfl]
      rw [show (("origin/" ++ r).data :: rs.map (fun b => ("origin/" ++ b).data)).map
          String.mk = (r :: rs).map (fun b => "origin/" ++ b) from by
        rw [show ("origin/" ++ r).data :: rs.map (fun b => ("origin/" ++ b).data) =
          ((r :: rs).map (fun b => "origin/" ++ b)).map String.data from by
            simp [List.map_map]]
        rw [List.map_map]
        exact mapMkData _]
      rw [List.filter_cons]
      rw [show (decide (pyStrip "origin/HEAD" ≠ "" ∧
        ¬ (pyEndsWith (pyStrip "origin/HEAD") "/HEAD" = true))) = false from by decide]
      simp only [Bool.false_eq_true, if_false]
      exact parseRemoteNames (r :: rs) hvr2 hhead2

/-- C5 counterexample: the object-oriented `get_available_branches` does
not strip only the `origin/` prefix and does not de-duplicate.  With a
remote branch named `feature/x` and another named `origin/feature/x`
(whose remote-tracking ref is `origin/origin/feature/x`), `str.replace`
removes both occurrences of `origin/`, the two entries collide, the
returned remote list contains the duplicate name `feature/x` twice, and
the prefix-stripped name `origin/feature/x` is absent. -/
theorem c5_counterexample :
    (get_available_branches_oo cleanFaults
        { localBranches := ["main"],
          remoteBranches := ["feature/x", "origin/feature/x"],
          originHead := some "main", current := some "main", commits := 0,
          pushes := 0, staged := false, dirty := false }).1.2 =
      ["feature/x", "feature/x"] ∧
    ¬ (get_available_branches_oo cleanFaults
        { localBranches := ["main"],
          remoteBranches := ["feature/x", "origin/feature/x"],
          originHead := some "main", current := some "main", commits := 0,
          pushes := 0, staged := false, dirty := false }).1.2.Nodup ∧
    "origin/feature/x" ∈
      ({ localBranches := ["main"],
         remoteBranches := ["feature/x", "origin/feature/x"],
         originHead := some "main", current := some "main", commits := 0,
         pushes := 0, staged := false, dirty := false : Repo }).remoteBranches ∧
    "origin/feature/x" ∉
      (get_available_branches_oo cleanFaults
        { localBranches := ["main"],
          remoteBranches := ["feature/x", "origin/feature/x"],
          originHead := some "main", current := some "main", commits := 0,
          pushes := 0, staged := false, dirty := false }).1.2 := by
  decide

/-- C5 amended: the object-oriented `availableBranches` excludes the
`origin/HEAD` pseudo-entry, preserves first-seen listing order and
performs no de-duplication of its own; remote names have every occurrence
of the substring `origin/` removed, which coincides with stripping the
`origin/` prefix exactly when the name contains no further `origin/`.
Under those conditions — duplicate-free listings whose remote names hold
no embedded `origin/` and whose remote-tracking refs do not end in
`/HEAD` — the returned lists are exactly the repository's branch lists,
in order and duplicate-free. -/
theorem c5_amended_available_branches (f : Faults) (s : Repo) (hwf : s.wfB = true)
    (hl : f.listFmtFault = none) (hr : f.listRFmtFault = none)
    (hndl : s.localBranches.Nodup) (hndr : s.remoteBranches.Nodup)
    (hclean : ∀ b ∈ s.remoteBranches, pyContains "origin/" b = false)
    (hhead : ∀ b ∈ s.remoteBranches, pyEndsWith ("origin/" ++ b) "/HEAD" = false) :
    (get_available_branches_oo f s).1 = (s.localBranches, s.remoteBranches) ∧
      (get_available_branches_oo f s).1.1.Nodup ∧
      (get_available_branches_oo f s).1.2.Nodup := by
  have hmain : (get_available_branches_oo f s).1 = (s.localBranches, s.remoteBranches) := by
    unfold get_available_branches_oo listFmtOutcome listRFmtOutcome queryOut
    rw [hl, hr]
    have hrun : ∀ out : String,
        run_git_command_oo (CmdOutcome.exited 0 out "") = (true, pyStrip out) :=
      fun out => by simp [run_git_command_oo]
    simp only [hrun, if_true]
    rw [parseLocalFmtGen s hwf, parseRemoteFmtGen s hwf hhead]
    rw [List.map_congr_left (fun b hb => stripAllOriginOfClean b (hclean b hb))]
    simp
  refine ⟨hmain, ?_, ?_⟩
  · rw [hmain]
    exact hndl
  · rw [hmain]
    exact hndr

/-- Witness for the amended C5 on a clean two-branch repository. -/
theorem c5_amended_available_branches_witness :
    (get_available_branches_oo cleanFaults
        { localBranches := ["main", "dev"], remoteBranches := ["main", "feature/x"],
          originHead := some "main", current := some "main", commits := 1,
          pushes := 0, staged := false, dirty := false }).1 =
      (["main", "dev"], ["main", "feature/x"]) :=
  (c5_amended_available_branches cleanFaults _ (by decide) rfl rfl (by decide)
    (by decide) (by decide) (by decide)).1
